import Mathlib

/-!
Verification of the Hokusei blueprint merger (`src/merger/cli.js`) against its
natural-language specification.

The merge core is shallowly embedded: JSON values become an inductive `Json`
type, JavaScript truthiness / `typeof` checks and property access become total
Lean functions, the mutable aggregation state of `mergeAll` becomes an explicit
`MState` record threaded through a fold, and the `try`/`catch` around the
planner walk becomes a walker returning the issues pushed before a potential
crash together with an optional crash message.  The process clock
(`new Date()`) is modelled by a `now : String` parameter, and `path.relative`
to the working directory is modelled as the identity (input paths are taken to
be relative already).  Plain JS objects used as string-keyed dictionaries are
modelled as association lists in insertion order.
-/

/-- A parsed JSON document.  A missing property and JS `undefined` are
conflated with `null`: in every code path of the merger the two behave
identically (both are falsy, neither is a string nor an array, and property
access on either throws). -/
inductive Json where
  | null
  | bool (b : Bool)
  | num (n : Int)
  | str (s : String)
  | arr (elems : List Json)
  | obj (fields : List (String × Json))
deriving Repr, Inhabited

/-- JavaScript truthiness of a value. -/
def Json.truthy : Json → Bool
  | .null => false
  | .bool b => b
  | .num n => n != 0
  | .str s => s != ""
  | .arr _ => true
  | .obj _ => true

/-- Property access `j[k]` on a non-nullish value: on an object, the value at
the key (or `null` for a missing key); on any other non-nullish value the
merger only reads properties that are absent, so the result is `null`. -/
def Json.getProp : Json → String → Json
  | .obj fs, k =>
    match fs.find? (fun p => p.1 == k) with
    | some p => p.2
    | none => .null
  | _, _ => .null

/-- Property access `j.k` as JavaScript performs it: reading a property of a
nullish value throws a `TypeError`. -/
def jsGet (j : Json) (k : String) : Except String Json :=
  match j with
  | .null => .error ("Cannot read properties of null (reading '" ++ k ++ "')")
  | _ => .ok (j.getProp k)

def Json.isArr : Json → Bool
  | .arr _ => true
  | _ => false

def Json.isStr : Json → Bool
  | .str _ => true
  | _ => false

/-- The elements of an array value, and `[]` for every non-array (the
`Array.isArray(x) ? x : []` idiom). -/
def Json.arrOrEmpty : Json → List Json
  | .arr xs => xs
  | _ => []

/-- JS `typeof x === 'object'`, which holds for objects, arrays and `null`. -/
def Json.jsTypeofObject : Json → Bool
  | .null => true
  | .arr _ => true
  | .obj _ => true
  | _ => false

/-- JS `a || b`: `a` if truthy, else `b`. -/
def jsOr (a b : Json) : Json := if a.truthy then a else b

/-- Keys of an object value in property order. -/
def Json.keys : Json → List String
  | .obj fs => fs.map (fun p => p.1)
  | _ => []

/-- Substring test (JS `String.prototype.includes`). -/
def strContains (s pat : String) : Bool :=
  s.data.tails.any (fun t => pat.data.isPrefixOf t)

/-- Lower-casing, character by character (`String.prototype.toLowerCase`). -/
def lowerStr (s : String) : String :=
  ⟨s.data.map Char.toLower⟩

/-- Suffix test (`String.prototype.endsWith`). -/
def strEndsWith (s suf : String) : Bool :=
  suf.data.isSuffixOf s.data

def basenameAux : List Char → List Char → List Char
  | [], acc => acc.reverse
  | c :: cs, acc => if c = '/' then basenameAux cs [] else basenameAux cs (c :: acc)

/-- Last `/`-separated component of a path (`path.basename`). -/
def basename (p : String) : String :=
  ⟨basenameAux p.data []⟩

/-- Lexicographic comparison of char lists by code point, as JS compares
strings with `<`/`>` in the default `Array.prototype.sort` comparator. -/
def lexLe : List Char → List Char → Bool
  | [], _ => true
  | _ :: _, [] => false
  | a :: as, b :: bs =>
    if a.val.toNat < b.val.toNat then true
    else if b.val.toNat < a.val.toNat then false
    else lexLe as bs

def strLe (a b : String) : Bool := lexLe a.data b.data

/-- The string order as a decidable relation, for sorting. -/
def strLeP (a b : String) : Prop := strLe a b = true

instance : DecidableRel strLeP := fun a b =>
  inferInstanceAs (Decidable (strLe a b = true))

/-- Kind keywords matched against the file name (`kindFromFilename`). -/
def kindFromFilename (file : String) : String :=
  let base := lowerStr (basename file)
  if strContains base "aimtable" then "aimtable"
  else if strContains base "hierarchy" then "hierarchy"
  else if strContains base "plannerbundle" then "plannerbundle"
  else "unknown"

/-- The lower-cased `version` field of the document when it is a string, else
`""` (`data && typeof data.version === 'string' ? data.version.toLowerCase() : ''`). -/
def versionOf (data : Json) : String :=
  if data.truthy then
    match data.getProp "version" with
    | .str s => lowerStr s
    | _ => ""
  else ""

/-- Document-kind classification of the merger: substring checks of the three
kind tags against the version, falling back to the file name. -/
def inferredKind (data : Json) (file : String) : String :=
  let version := versionOf data
  if strContains version "aimtable" then "aimtable"
  else if strContains version "hierarchy" then "hierarchy"
  else if strContains version "plannerbundle" then "plannerbundle"
  else kindFromFilename file

/-- One reference-check violation record, with the exact fields the merger
builds (`aimId`/`microId` are both carried in `refId`, distinguished by
`type`; the JS field `at` is named `atPath` because `at` is a Lean keyword). -/
structure RefIssue where
  type : String
  refId : String
  file : String
  project : Json
  path : Json
  slice : Json
  index : Nat
  atPath : String
deriving Repr

/-- Location string `projects[p].paths[q].slices[r]`. -/
def atSlice (pIdx pathIdx sIdx : Nat) : String :=
  "projects[" ++ toString pIdx ++ "].paths[" ++ toString pathIdx ++ "].slices[" ++ toString sIdx ++ "]"

def mkAimIssue (aimId file : String) (proj : Json) (pIdx : Nat) (pth : Json)
    (pathIdx : Nat) (sl : Json) (sIdx cIdx : Nat) : RefIssue :=
  { type := "aimId-not-found", refId := aimId, file := file,
    project := jsOr (proj.getProp "name") (jsOr (proj.getProp "id") (Json.str ("#" ++ toString pIdx))),
    path := jsOr (pth.getProp "name") (Json.str ("#" ++ toString pathIdx)),
    slice := jsOr (sl.getProp "name") (Json.str ("#" ++ toString sIdx)),
    index := cIdx, atPath := atSlice pIdx pathIdx sIdx }

def mkMicroIssue (microId file : String) (proj : Json) (pIdx : Nat) (pth : Json)
    (pathIdx : Nat) (sl : Json) (sIdx mIdx : Nat) : RefIssue :=
  { type := "microId-not-found", refId := microId, file := file,
    project := jsOr (proj.getProp "name") (jsOr (proj.getProp "id") (Json.str ("#" ++ toString pIdx))),
    path := jsOr (pth.getProp "name") (Json.str ("#" ++ toString pathIdx)),
    slice := jsOr (sl.getProp "name") (Json.str ("#" ++ toString sIdx)),
    index := mIdx, atPath := atSlice pIdx pathIdx sIdx ++ ".dod.includesMicros[" ++ toString mIdx ++ "]" }

/-- The value `co && co.aimId`: the `aimId` property when the callout is
truthy, and the callout itself when it is falsy. -/
def calloutAimVal (co : Json) : Json :=
  if co.truthy then co.getProp "aimId" else co

/-- Issues pushed by the `[...pos, ...neg].forEach` callout loop of one slice. -/
def aimCalloutIssues (A : List String) (file : String) (proj : Json) (pIdx : Nat)
    (pth : Json) (pathIdx : Nat) (sl : Json) (sIdx : Nat) (cs : List Json) : List RefIssue :=
  cs.enum.filterMap (fun ci =>
    match calloutAimVal ci.2 with
    | .str a => if A.contains a then none else some (mkAimIssue a file proj pIdx pth pathIdx sl sIdx ci.1)
    | _ => none)

/-- Issues pushed by the `includeMicros.forEach` loop of one slice. -/
def microDodIssues (M : List String) (file : String) (proj : Json) (pIdx : Nat)
    (pth : Json) (pathIdx : Nat) (sl : Json) (sIdx : Nat) (mids : List Json) : List RefIssue :=
  mids.enum.filterMap (fun mi =>
    match mi.2 with
    | .str m => if M.contains m then none else some (mkMicroIssue m file proj pIdx pth pathIdx sl sIdx mi.1)
    | _ => none)

/-- The `callouts` value of a slice: `sl && sl.callouts ? sl.callouts : {}`. -/
def calloutsOf (sl : Json) : Json :=
  if sl.truthy && (sl.getProp "callouts").truthy then sl.getProp "callouts" else Json.obj []

/-- The combined callout list `[...pos, ...neg]` of a slice. -/
def sliceCallouts (sl : Json) : List Json :=
  let callouts := calloutsOf sl
  ((callouts.getProp "positiveEffects").arrOrEmpty) ++
    ((callouts.getProp "negativeEffects").arrOrEmpty)

/-- The `includeMicros` list of a slice:
`dod && Array.isArray(dod.includesMicros) ? dod.includesMicros : []`. -/
def sliceMicros (sl : Json) : List Json :=
  let dod := if sl.truthy then sl.getProp "dod" else sl
  if dod.truthy && (dod.getProp "includesMicros").isArr then
    (dod.getProp "includesMicros").arrOrEmpty
  else []

/-- Reference checks of one slice; nothing in the slice body can throw, so the
result is a plain list. -/
def walkSlice (A M : List String) (file : String) (proj : Json) (pIdx : Nat)
    (pth : Json) (pathIdx : Nat) (sl : Json) (sIdx : Nat) : List RefIssue :=
  aimCalloutIssues A file proj pIdx pth pathIdx sl sIdx (sliceCallouts sl) ++
    microDodIssues M file proj pIdx pth pathIdx sl sIdx (sliceMicros sl)

/-- Runs an indexed `forEach` whose body may throw: issues pushed before the
first throw are kept, and the first throw aborts the remaining iterations. -/
def seqWalk (f : Nat → Json → List RefIssue × Option String) :
    Nat → List Json → List RefIssue × Option String
  | _, [] => ([], none)
  | i, x :: xs =>
    let r := f i x
    match r.2 with
    | some e => (r.1, some e)
    | none =>
      let rest := seqWalk f (i + 1) xs
      (r.1 ++ rest.1, rest.2)

/-- Reference checks of one path: `pth.slices` throws on a nullish path. -/
def walkPath (A M : List String) (file : String) (proj : Json) (pIdx : Nat)
    (pathIdx : Nat) (pth : Json) : List RefIssue × Option String :=
  match jsGet pth "slices" with
  | .error e => ([], some e)
  | .ok v =>
    ((v.arrOrEmpty.enum.map (fun si => walkSlice A M file proj pIdx pth pathIdx si.2 si.1)).flatten,
      none)

/-- Reference checks of one project: `proj.paths` throws on a nullish project. -/
def walkProj (A M : List String) (file : String) (pIdx : Nat) (proj : Json) :
    List RefIssue × Option String :=
  match jsGet proj "paths" with
  | .error e => ([], some e)
  | .ok v => seqWalk (walkPath A M file proj pIdx) 0 v.arrOrEmpty

/-- The whole `try` block of the planner branch: issues collected until a
potential crash, plus the crash message the `catch` would record. -/
def walkPlanner (A M : List String) (file : String) (data : Json) :
    List RefIssue × Option String :=
  match jsGet data "projects" with
  | .error e => ([], some e)
  | .ok v => seqWalk (walkProj A M file) 0 v.arrOrEmpty

/-- Own enumerable properties a value contributes under object spread. -/
def Json.spreadFields : Json → List (String × Json)
  | .obj fs => fs
  | .arr xs => xs.enum.map (fun p => (toString p.1, p.2))
  | .str s => s.data.enum.map (fun p => (toString p.1, Json.str (String.mk [p.2])))
  | _ => []

/-- The stored planner payload `{ source: path.basename(file), ...data }`;
a `source` key of the document overrides the injected one in place. -/
def mkPlanner (file : String) (data : Json) : Json :=
  match data.spreadFields.find? (fun p => p.1 == "source") with
  | some p => Json.obj (("source", p.2) :: data.spreadFields.filter (fun q => q.1 != "source"))
  | none => Json.obj (("source", Json.str (basename file)) :: data.spreadFields)

/-- One input file of `mergeAll`: its (relative) path and the outcome of
`readJson` — the parsed document or the parse-error message. -/
abbrev MFile := String × Except String Json

/-- The mutable aggregation state of `mergeAll`.  The two `Set`s keep JS
insertion order as deduplicating lists; `aimsMap` keeps the insertion-ordered
`id -> item` dictionary. -/
structure MState where
  aimIds : List String := []
  microIds : List String := []
  refIssues : List RefIssue := []
  errors : List String := []
  aimsMap : List (String × Json) := []
  hierarchy : Json := .null
  planners : List Json := []
deriving Repr

/-- JS `Set.prototype.add`. -/
def addSet (s : List String) (x : String) : List String :=
  if s.contains x then s else s ++ [x]

def addAll (s : List String) (xs : List String) : List String :=
  xs.foldl addSet s

/-- The id of an AimTable item when it passes
`item && typeof item === 'object' && typeof item.id === 'string'`. -/
def aimItemId (item : Json) : Option String :=
  if item.truthy && item.jsTypeofObject then
    match item.getProp "id" with
    | .str s => some s
    | _ => none
  else none

def mapLookup (m : List (String × Json)) (k : String) : Option Json :=
  (m.find? (fun p => p.1 == k)).map (fun p => p.2)

/-- Property names a plain `{}` object inherits from `Object.prototype` in
Node (the standard methods plus the Annex B accessors); looking any of them
up on `aimsMap` yields a truthy function (or, for `__proto__`, the prototype
object itself) even when no own entry exists. -/
def objectProtoKeys : List String :=
  ["constructor", "__defineGetter__", "__defineSetter__", "hasOwnProperty",
   "__lookupGetter__", "__lookupSetter__", "isPrototypeOf",
   "propertyIsEnumerable", "toString", "valueOf", "__proto__",
   "toLocaleString"]

/-- Truthiness of `aimsMap[id]` on the plain `{}` dictionary: an own entry
shadows the prototype and is itself tested for truthiness; with no own
entry, the lookup falls through to `Object.prototype`, which supplies a
truthy value for exactly the `objectProtoKeys`. -/
def dictGetTruthy (m : List (String × Json)) (id : String) : Bool :=
  match mapLookup m id with
  | some v => v.truthy
  | none => objectProtoKeys.contains id

/-- One iteration of the AimTable item loop: the `!aimsMap[item.id]` guard
stores the item only when the lookup — own entry or inherited
`Object.prototype` property — is falsy, so first id wins and ids naming
prototype properties are never stored; the id is always added to the
known-aim-ids set. -/
def processAimItem (st : MState) (item : Json) : MState :=
  match aimItemId item with
  | some id =>
    let st1 :=
      if dictGetTruthy st.aimsMap id then st
      else { st with aimsMap := st.aimsMap ++ [(id, item)] }
    { st1 with aimIds := addSet st1.aimIds id }
  | none => st

def processAimTable (st : MState) (data : Json) : MState :=
  if data.truthy && (data.getProp "items").isArr then
    ((data.getProp "items").arrOrEmpty).foldl processAimItem st
  else st

/-- Micro ids collected by the nested pillar/sub/micro loops. -/
def microIdsOfHierarchy (data : Json) : List String :=
  if data.truthy && (data.getProp "pillars").isArr then
    ((data.getProp "pillars").arrOrEmpty).flatMap (fun pillar =>
      if pillar.truthy && (pillar.getProp "subs").isArr then
        ((pillar.getProp "subs").arrOrEmpty).flatMap (fun sub =>
          if sub.truthy && (sub.getProp "micros").isArr then
            ((sub.getProp "micros").arrOrEmpty).filterMap (fun micro =>
              if micro.truthy then
                match micro.getProp "id" with
                | .str s => some s
                | _ => none
              else none)
          else [])
      else [])
  else []

def processHierarchy (st : MState) (data : Json) : MState :=
  { st with hierarchy := data, microIds := addAll st.microIds (microIdsOfHierarchy data) }

def processPlanner (st : MState) (file : String) (data : Json) : MState :=
  let st1 := { st with planners := st.planners ++ [mkPlanner file data] }
  let w := walkPlanner st1.aimIds st1.microIds (basename file) data
  let st2 := { st1 with refIssues := st1.refIssues ++ w.1 }
  match w.2 with
  | some e => { st2 with errors := st2.errors ++ ["Ref-check crashed on " ++ basename file ++ ": " ++ e] }
  | none => st2

/-- Processing of one file of the scan, mirroring the body of the
`for (const file of files)` loop of `mergeAll`. -/
def mergeStep (st : MState) (f : MFile) : MState :=
  match f.2 with
  | .error e => { st with errors := st.errors ++ ["Failed to parse " ++ f.1 ++ ": " ++ e] }
  | .ok data =>
    let kind := inferredKind data f.1
    if kind == "aimtable" then processAimTable st data
    else if kind == "hierarchy" then processHierarchy st data
    else if kind == "plannerbundle" then processPlanner st f.1 data
    else { st with errors := st.errors ++ ["Skipped unrecognized import: " ++ f.1] }

def mergeState (files : List MFile) : MState :=
  files.foldl mergeStep {}

structure Counts where
  importsTotal : Nat
  plannersTotal : Nat
  plannersValid : Nat
  aimIds : Nat
  microIds : Nat
  refIssues : Nat
deriving Repr

structure Report where
  version : String
  mergedAt : String
  counts : Counts
  errors : List String
  invalidPlanners : List Json
  refIssues : List RefIssue
deriving Repr

structure Merged where
  version : String
  mergedAt : String
  sources : List String
  aims : List Json
  hierarchy : Json
  planners : List Json
deriving Repr

structure MergeResult where
  report : Report
  merged : Merged
  outRoot : String
deriving Repr

/-- The merge core.  `now` stands for the strings the two `new Date()` reads
and `isoStampForDir` produce during one run. -/
def mergeAll (files : List MFile) (now : String) : MergeResult :=
  let st := mergeState files
  { report :=
      { version := "blueprint.merge.report.v1", mergedAt := now,
        counts :=
          { importsTotal := files.length, plannersTotal := st.planners.length,
            plannersValid := st.planners.length, aimIds := st.aimIds.length,
            microIds := st.microIds.length, refIssues := st.refIssues.length },
        errors := st.errors, invalidPlanners := [], refIssues := st.refIssues },
    merged :=
      { version := "blueprint.merge.v1", mergedAt := now, sources := files.map (fun f => f.1),
        aims := st.aimsMap.map (fun p => p.2), hierarchy := st.hierarchy,
        planners := st.planners },
    outRoot := "merges/" ++ now }

/-- JSON shape of one reference-issue record, with the literal key order of
the `refIssues.push({...})` object literals. -/
def RefIssue.toJson (ri : RefIssue) : Json :=
  Json.obj [("type", .str ri.type),
    (if ri.type == "aimId-not-found" then ("aimId", Json.str ri.refId) else ("microId", Json.str ri.refId)),
    ("file", .str ri.file), ("project", ri.project), ("path", ri.path),
    ("slice", ri.slice), ("index", .num ri.index), ("at", .str ri.atPath)]

def Counts.toJson (c : Counts) : Json :=
  Json.obj [("importsTotal", .num c.importsTotal), ("plannersTotal", .num c.plannersTotal),
    ("plannersValid", .num c.plannersValid), ("aimIds", .num c.aimIds),
    ("microIds", .num c.microIds), ("refIssues", .num c.refIssues)]

/-- JSON shape of the structured report, with the literal key order of the
`report = {...}` object literal. -/
def Report.toJson (r : Report) : Json :=
  Json.obj [("version", .str r.version), ("mergedAt", .str r.mergedAt),
    ("counts", r.counts.toJson), ("errors", .arr (r.errors.map Json.str)),
    ("invalidPlanners", .arr r.invalidPlanners),
    ("refIssues", .arr (r.refIssues.map RefIssue.toJson))]

/-- A directory entry one level below the scan root: its name, whether it is
a directory, and (when it is) the entries `readdirSync` reports inside it. -/
structure FsFile where
  name : String
  isFile : Bool
deriving Repr

structure FsDirent where
  name : String
  isDirectory : Bool
  entries : List FsFile
deriving Repr

def pathJoin (a b : String) : String := a ++ "/" ++ b

/-- JS `Array.prototype.sort()` with the default string comparator.  The
comparator is an antisymmetric total order on strings, so the sorted
permutation is unique and an insertion sort is an exact model. -/
def sortStrings (l : List String) : List String := List.insertionSort strLeP l

/-- The Document Store Scanner (`listImportJsonFiles`): `fs` is the root
directory listing, or `none` when the root is missing or not a directory. -/
def listImportJsonFiles (root : String) (fs : Option (List FsDirent)) : List String :=
  match fs with
  | none => []
  | some dirents =>
    let out := dirents.foldl (fun acc d =>
      if d.isDirectory then
        acc ++ d.entries.filterMap (fun f =>
          if f.isFile && strEndsWith (lowerStr f.name) ".json" then
            some (pathJoin (pathJoin root d.name) f.name)
          else none)
      else acc) []
    sortStrings out

/-- The json files one level below the root, in directory-listing order
(before any sorting). -/
def scanCandidates (root : String) (dirents : List FsDirent) : List String :=
  (dirents.filter (fun d => d.isDirectory)).flatMap (fun d =>
    d.entries.filterMap (fun f =>
      if f.isFile && strEndsWith (lowerStr f.name) ".json" then
        some (pathJoin (pathJoin root d.name) f.name)
      else none))

def direntLe (d1 d2 : FsDirent) : Prop := strLeP d1.name d2.name

instance : DecidableRel direntLe := fun d1 d2 =>
  inferInstanceAs (Decidable (strLe d1.name d2.name = true))

/-- Scanner contract as claim C5 words it: batches ordered by their (timestamp)
names ascending, files ordered lexicographically within a batch. -/
def listByBatchSpec (root : String) (fs : Option (List FsDirent)) : List String :=
  match fs with
  | none => []
  | some dirents =>
    (List.insertionSort direntLe (dirents.filter (fun d => d.isDirectory))).flatMap
      (fun d =>
        (sortStrings (d.entries.filterMap (fun f =>
          if f.isFile && strEndsWith (lowerStr f.name) ".json" then some f.name else none))).map
          (pathJoin (pathJoin root d.name)))

def strStartsWith (s p : String) : Bool := p.data.isPrefixOf s.data

/-- Classifier contract as claim C4 words it: the kind is derived from the
version tag by prefix match when a recognized tag is present, else from kind
keywords in the file name. -/
def classifierSpecPrefixTag (data : Json) (file : String) : String :=
  let v := versionOf data
  if strStartsWith v "aimtable" || strStartsWith v "hierarchy" || strStartsWith v "plannerbundle" then
    (if strStartsWith v "aimtable" then "aimtable"
     else if strStartsWith v "hierarchy" then "hierarchy"
     else "plannerbundle")
  else kindFromFilename file

/-- Classifier contract amended: a recognized version tag is one containing a
kind tag as a substring (checked in the order aimtable, hierarchy,
plannerbundle), not one starting with it. -/
def classifierSpecSub (data : Json) (file : String) : String :=
  let v := versionOf data
  if strContains v "aimtable" || strContains v "hierarchy" || strContains v "plannerbundle" then
    (if strContains v "aimtable" then "aimtable"
     else if strContains v "hierarchy" then "hierarchy"
     else "plannerbundle")
  else kindFromFilename file

/-- The AimTable items a file feeds into the aim loop (empty for every other
kind and for parse failures). -/
def aimItemsOf (f : MFile) : List Json :=
  match f.2 with
  | .ok data =>
    if inferredKind data f.1 == "aimtable" && data.truthy && (data.getProp "items").isArr then
      (data.getProp "items").arrOrEmpty
    else []
  | .error _ => []

/-- First-wins winner selection as claim C1 words it: the earliest item, in
file scan order and then item order, bearing the given id. -/
def firstAimItem (files : List MFile) (id : String) : Option Json :=
  (files.flatMap aimItemsOf).find? (fun it => aimItemId it == some id)

/-- The Hierarchy document a file contributes, if any. -/
def hierOf (f : MFile) : Option Json :=
  match f.2 with
  | .ok d => if inferredKind d f.1 == "hierarchy" then some d else none
  | .error _ => none

/-- The Hierarchy documents of the scan, in scan order. -/
def hierDocs (files : List MFile) : List Json :=
  files.filterMap hierOf

def projectsOf (data : Json) : List Json := (data.getProp "projects").arrOrEmpty

def pathsOf (proj : Json) : List Json := (proj.getProp "paths").arrOrEmpty

def slicesOf (pth : Json) : List Json := (pth.getProp "slices").arrOrEmpty

/-- The crash-free planner walk as a pure enumeration of every slice of every
path of every project. -/
def plannerIssuesTotal (A M : List String) (file : String) (data : Json) : List RefIssue :=
  (projectsOf data).enum.flatMap (fun pi =>
    (pathsOf pi.2).enum.flatMap (fun qj =>
      (slicesOf qj.2).enum.flatMap (fun rk =>
        walkSlice A M file pi.2 pi.1 qj.2 qj.1 rk.2 rk.1)))

/-- The error strings one file contributes to the report, which depend only on
the file itself (crash detection never reads the accumulated id sets). -/
def errOf (f : MFile) : List String :=
  match f.2 with
  | .error e => ["Failed to parse " ++ f.1 ++ ": " ++ e]
  | .ok data =>
    let kind := inferredKind data f.1
    if kind == "aimtable" then []
    else if kind == "hierarchy" then []
    else if kind == "plannerbundle" then
      match (walkPlanner [] [] (basename f.1) data).2 with
      | some e => ["Ref-check crashed on " ++ basename f.1 ++ ": " ++ e]
      | none => []
    else ["Skipped unrecognized import: " ++ f.1]

/-- The planner payloads one file contributes to the aggregate. -/
def plannersOf (f : MFile) : List Json :=
  match f.2 with
  | .ok data => if inferredKind data f.1 == "plannerbundle" then [mkPlanner f.1 data] else []
  | .error _ => []

/-- Projection of an aim-callout issue that forgets the (position-dependent)
`index` field. -/
def issueKeyA (ri : RefIssue) : String × String × String :=
  (ri.type, ri.refId, ri.atPath)

/-- Projection of a micro issue that forgets the position-dependent `index`
and `at` fields. -/
def issueKeyM (ri : RefIssue) : String × String :=
  (ri.type, ri.refId)

/-- Concrete fixtures used by witnesses and counterexamples. -/
def aimDoc1 : Json := Json.obj [("version", Json.str "aimtable.v1"),
  ("items", Json.arr [Json.obj [("id", Json.str "A1"), ("note", Json.str "first")]])]

def aimDoc2 : Json := Json.obj [("version", Json.str "aimtable.v1"),
  ("items", Json.arr [Json.obj [("id", Json.str "A1"), ("note", Json.str "second")],
    Json.obj [("id", Json.str "A2")]])]

def hierDoc1 : Json := Json.obj [("version", Json.str "hierarchy.v1"),
  ("pillars", Json.arr [Json.obj [("subs", Json.arr [Json.obj [("micros",
    Json.arr [Json.obj [("id", Json.str "M1")]])]])]])]

def slice1 : Json := Json.obj [
  ("callouts", Json.obj [("positiveEffects", Json.arr [Json.obj [("aimId", Json.str "A9")]])]),
  ("dod", Json.obj [("includesMicros", Json.arr [Json.str "M9"])])]

def path1 : Json := Json.obj [("slices", Json.arr [slice1])]

def proj1 : Json := Json.obj [("paths", Json.arr [path1])]

def plannerDoc1 : Json := Json.obj [("version", Json.str "plannerbundle.v1"),
  ("projects", Json.arr [proj1])]

/-- A planner bundle whose only callout is the empty string. -/
def plannerDoc2 : Json := Json.obj [("version", Json.str "plannerbundle.v1"),
  ("projects", Json.arr [Json.obj [("paths", Json.arr [Json.obj [("slices", Json.arr [Json.obj [
    ("callouts", Json.obj [("positiveEffects", Json.arr [Json.str ""])])]])]])]])]

/-- A planner bundle whose project list holds a `null`, crashing the walk. -/
def plannerDoc3 : Json := Json.obj [("version", Json.str "plannerbundle.v1"),
  ("projects", Json.arr [Json.null])]

def filesA : List MFile :=
  [("imports/b1/aimtable.v1.import.json", .ok aimDoc1),
   ("imports/b2/aimtable.v1.import.json", .ok aimDoc2),
   ("imports/b2/hierarchy.v1.import.json", .ok hierDoc1),
   ("imports/b3/plannerbundle.v1.import.json", .ok plannerDoc1)]

def filesC7 : List MFile := [("imports/b1/plannerbundle.v1.import.json", .ok plannerDoc1)]

def fsC5 : List FsDirent :=
  [⟨"20251002", true, [⟨"a.json", true⟩]⟩, ⟨"20251002-231538Z", true, [⟨"a.json", true⟩]⟩]

def docC4 : Json := Json.obj [("version", Json.str "x.aimtable")]

/-- Fixture: `aimDoc1` with a junk (non-object) entry inserted in `items`. -/
def aimDoc1junk : Json := Json.obj [("version", Json.str "aimtable.v1"),
  ("items", Json.arr [Json.num 5,
    Json.obj [("id", Json.str "A1"), ("note", Json.str "first")]])]

/-- Fixture: an AimTable whose only item id collides with an
`Object.prototype` property name. -/
def aimDocProto : Json := Json.obj [("version", Json.str "aimtable.v1"),
  ("items", Json.arr [Json.obj [("id", Json.str "constructor")]])]

def filesProto : List MFile := [("imports/b1/aimtable.v1.import.json", .ok aimDocProto)]

theorem kindFromFilename_cases (file : String) :
    kindFromFilename file = "aimtable" ∨ kindFromFilename file = "hierarchy" ∨
    kindFromFilename file = "plannerbundle" ∨ kindFromFilename file = "unknown" := by
  unfold kindFromFilename
  cases h1 : strContains (lowerStr (basename file)) "aimtable" <;>
    cases h2 : strContains (lowerStr (basename file)) "hierarchy" <;>
      cases h3 : strContains (lowerStr (basename file)) "plannerbundle" <;>
        simp [h1, h2, h3]

/-- Claim C9: the merge core performs no planner-validity checking — in every
run `counts.plannersValid` equals `counts.plannersTotal` and the
`invalidPlanners` list of the report is empty. -/
theorem c9_no_planner_validation (files : List MFile) (now : String) :
    (mergeAll files now).report.counts.plannersValid =
      (mergeAll files now).report.counts.plannersTotal ∧
    (mergeAll files now).report.invalidPlanners = [] :=
  ⟨rfl, rfl⟩

/-- Claim C8: running the merge twice over the same ordered file list with the
same contents yields identical aggregates (sources, aims, hierarchy, planners)
and identical report counts, errors and reference issues, whatever the two
run timestamps are. -/
theorem c8_idempotent (files : List MFile) (now1 now2 : String) :
    (mergeAll files now1).merged.sources = (mergeAll files now2).merged.sources ∧
    (mergeAll files now1).merged.aims = (mergeAll files now2).merged.aims ∧
    (mergeAll files now1).merged.hierarchy = (mergeAll files now2).merged.hierarchy ∧
    (mergeAll files now1).merged.planners = (mergeAll files now2).merged.planners ∧
    (mergeAll files now1).report.counts = (mergeAll files now2).report.counts ∧
    (mergeAll files now1).report.errors = (mergeAll files now2).report.errors ∧
    (mergeAll files now1).report.refIssues = (mergeAll files now2).report.refIssues :=
  ⟨rfl, rfl, rfl, rfl, rfl, rfl, rfl⟩

/-- Claim C7, counterexample: on a run with two reference issues, the report
JSON carries no `referenceIssues` key (the key is `refIssues`), and no issue
record carries `referencedId`, `sourceFile` or `locationPath` keys. -/
theorem c7_counterexample :
    (Json.keys (Report.toJson (mergeAll filesC7 "t").report)).contains "referenceIssues" = false ∧
    (mergeAll filesC7 "t").report.refIssues.length = 2 ∧
    Json.keys (Report.toJson (mergeAll filesC7 "t").report) =
      ["version", "mergedAt", "counts", "errors", "invalidPlanners", "refIssues"] ∧
    ((mergeAll filesC7 "t").report.refIssues.map (fun ri => Json.keys (RefIssue.toJson ri))).all
      (fun ks => !(ks.contains "referencedId") && !(ks.contains "sourceFile") &&
        !(ks.contains "locationPath")) = true :=
  ⟨rfl, rfl, rfl, rfl⟩

/-- Claim C7, amended: the structured report has version
`blueprint.merge.report.v1` and carries its reference issues under the key
`refIssues`, alongside `mergedAt`, `counts`, `errors` and `invalidPlanners`;
each issue record has the keys `type`, `aimId` or `microId` (matching its
type), `file`, `project`, `path`, `slice`, `index` and `at`. -/
theorem c7_report_shape_amended (files : List MFile) (now : String) (ri : RefIssue) :
    (mergeAll files now).report.version = "blueprint.merge.report.v1" ∧
    Json.keys (Report.toJson (mergeAll files now).report) =
      ["version", "mergedAt", "counts", "errors", "invalidPlanners", "refIssues"] ∧
    (Report.toJson (mergeAll files now).report).getProp "refIssues" =
      Json.arr ((mergeAll files now).report.refIssues.map RefIssue.toJson) ∧
    Json.keys (RefIssue.toJson ri) =
      ["type", if ri.type == "aimId-not-found" then "aimId" else "microId",
       "file", "project", "path", "slice", "index", "at"] := by
  refine ⟨rfl, rfl, rfl, ?_⟩
  cases h : ri.type == "aimId-not-found" <;> simp [RefIssue.toJson, Json.keys, h]

/-- Claim C4, counterexample: a document whose version is `x.aimtable` (no
kind tag as a prefix) in a file whose name matches no kind keyword is
classified `aimtable` by the merger (substring match), while the claimed
prefix-match classification yields `unknown`. -/
theorem c4_counterexample :
    inferredKind docC4 "doc.json" = "aimtable" ∧
    classifierSpecPrefixTag docC4 "doc.json" = "unknown" ∧
    ¬ inferredKind docC4 "doc.json" = classifierSpecPrefixTag docC4 "doc.json" :=
  ⟨rfl, rfl, by decide⟩

/-- Claim C4, amended: classification derives the kind from a recognized
version tag case-insensitively by substring (not prefix) match against the
three kind tags when one is contained in the version, otherwise falls back to
kind keywords in the file name, otherwise returns `unknown`; it always
returns one of the four kind strings and never fails. -/
theorem c4_classifier_amended (data : Json) (file : String) :
    inferredKind data file = classifierSpecSub data file ∧
    (inferredKind data file = "aimtable" ∨ inferredKind data file = "hierarchy" ∨
      inferredKind data file = "plannerbundle" ∨ inferredKind data file = "unknown") := by
  constructor
  · unfold inferredKind classifierSpecSub
    cases h1 : strContains (versionOf data) "aimtable" <;>
      cases h2 : strContains (versionOf data) "hierarchy" <;>
        cases h3 : strContains (versionOf data) "plannerbundle" <;>
          simp [h1, h2, h3]
  · unfold inferredKind
    cases h1 : strContains (versionOf data) "aimtable" <;>
      cases h2 : strContains (versionOf data) "hierarchy" <;>
        cases h3 : strContains (versionOf data) "plannerbundle" <;>
          simp [h1, h2, h3, kindFromFilename_cases file]

theorem lexLe_total : ∀ as bs : List Char, lexLe as bs = true ∨ lexLe bs as = true := by
  intro as
  induction as with
  | nil => intro bs; left; rfl
  | cons a as ih =>
    intro bs
    match bs with
    | [] => right; rfl
    | b :: bs =>
      rcases Nat.lt_trichotomy a.val.toNat b.val.toNat with h | h | h
      · left; simp [lexLe, h]
      · rcases ih bs with h' | h'
        · left; simp [lexLe, h, lt_irrefl, h']
        · right; simp [lexLe, h, lt_irrefl, h']
      · right; simp [lexLe, h]

theorem lexLe_trans : ∀ as bs cs : List Char,
    lexLe as bs = true → lexLe bs cs = true → lexLe as cs = true := by
  intro as
  induction as with
  | nil => intro bs cs _ _; rfl
  | cons a as ih =>
    intro bs cs hab hbc
    match bs, cs with
    | [], _ => simp [lexLe] at hab
    | b :: bs, [] => simp [lexLe] at hbc
    | b :: bs, c :: cs =>
      by_cases h1 : a.val.toNat < b.val.toNat
      · by_cases h2 : b.val.toNat < c.val.toNat
        · simp [lexLe, lt_trans h1 h2]
        · by_cases h3 : c.val.toNat < b.val.toNat
          · simp [lexLe, h2, h3] at hbc
          · have hbc' : b.val.toNat = c.val.toNat := le_antisymm (not_lt.mp h3) (not_lt.mp h2)
            simp [lexLe, hbc' ▸ h1]
      · by_cases h3 : b.val.toNat < a.val.toNat
        · simp [lexLe, h1, h3] at hab
        · have hab' : a.val.toNat = b.val.toNat := le_antisymm (not_lt.mp h3) (not_lt.mp h1)
          by_cases h2 : b.val.toNat < c.val.toNat
          · simp [lexLe, hab' ▸ h2]
          · by_cases h4 : c.val.toNat < b.val.toNat
            · simp [lexLe, h2, h4] at hbc
            · have hbc' : b.val.toNat = c.val.toNat := le_antisymm (not_lt.mp h4) (not_lt.mp h2)
              have hac : a.val.toNat = c.val.toNat := hab'.trans hbc'
              have tab : lexLe as bs = true := by simpa [lexLe, h1, h3] using hab
              have tbc : lexLe bs cs = true := by simpa [lexLe, h2, h4] using hbc
              simp [lexLe, hac, lt_irrefl, ih bs cs tab tbc]

instance : IsTotal String strLeP :=
  ⟨fun a b => lexLe_total a.data b.data⟩

instance : IsTrans String strLeP :=
  ⟨fun a b c => lexLe_trans a.data b.data c.data⟩

theorem foldl_filter_flatMap {α β : Type} (p : α → Bool) (g : α → List β) :
    ∀ (l : List α) (acc : List β),
      l.foldl (fun acc d => if p d then acc ++ g d else acc) acc =
        acc ++ (l.filter p).flatMap g := by
  intro l
  induction l with
  | nil => intro acc; simp
  | cons d l ih =>
    intro acc
    by_cases h : p d
    · simp only [List.foldl_cons, h, if_true, ih, List.filter_cons_of_pos h,
        List.flatMap_cons, List.append_assoc]
    · simp only [List.foldl_cons, h, if_false, ih,
        List.filter_cons_of_neg (by simpa using h), Bool.false_eq_true]

/-- Claim C5, counterexample: with batch directories `20251002` and
`20251002-231538Z` (each holding `a.json`), the scanner's single sort of the
joined paths puts the later batch first, because `-` sorts before the path
separator `/`; ordering by batch name ascending would put `20251002` first. -/
theorem c5_counterexample :
    listImportJsonFiles "imports" (some fsC5) =
      ["imports/20251002-231538Z/a.json", "imports/20251002/a.json"] ∧
    listByBatchSpec "imports" (some fsC5) =
      ["imports/20251002/a.json", "imports/20251002-231538Z/a.json"] ∧
    ¬ listImportJsonFiles "imports" (some fsC5) = listByBatchSpec "imports" (some fsC5) :=
  ⟨rfl, rfl, by decide⟩

/-- Claim C5, amended: the scanner returns exactly the `.json` files found one
directory level below the root (non-directory root entries ignored), ordered
lexicographically by the full joined path — which coincides with
batch-ascending, lexicographic-within-batch order except when one batch name
extends another with a character below `/` — and a missing root yields the
empty list rather than an error. -/
theorem c5_scanner_amended (root : String) (dirents : List FsDirent) :
    List.Sorted strLeP (listImportJsonFiles root (some dirents)) ∧
    (listImportJsonFiles root (some dirents)).Perm (scanCandidates root dirents) ∧
    listImportJsonFiles root none = [] := by
  refine ⟨?_, ?_, rfl⟩
  · exact List.sorted_insertionSort strLeP _
  · show (List.insertionSort strLeP _).Perm _
    have h := foldl_filter_flatMap (fun d : FsDirent => d.isDirectory)
      (fun d => d.entries.filterMap (fun f =>
        if f.isFile && strEndsWith (lowerStr f.name) ".json" then
          some (pathJoin (pathJoin root d.name) f.name)
        else none)) dirents []
    simp only [List.nil_append] at h
    rw [h]
    exact List.perm_insertionSort strLeP _

theorem inferredKind_cases (data : Json) (file : String) :
    inferredKind data file = "aimtable" ∨ inferredKind data file = "hierarchy" ∨
    inferredKind data file = "plannerbundle" ∨ inferredKind data file = "unknown" := by
  unfold inferredKind
  cases h1 : strContains (versionOf data) "aimtable" <;>
    cases h2 : strContains (versionOf data) "hierarchy" <;>
      cases h3 : strContains (versionOf data) "plannerbundle" <;>
        simp [h1, h2, h3, kindFromFilename_cases file]

theorem processAimItem_proj (st : MState) (item : Json) :
    (processAimItem st item).microIds = st.microIds ∧
    (processAimItem st item).hierarchy = st.hierarchy ∧
    (processAimItem st item).refIssues = st.refIssues ∧
    (processAimItem st item).errors = st.errors ∧
    (processAimItem st item).planners = st.planners := by
  unfold processAimItem
  cases aimItemId item with
  | none => exact ⟨rfl, rfl, rfl, rfl, rfl⟩
  | some id =>
    dsimp only
    split <;> exact ⟨rfl, rfl, rfl, rfl, rfl⟩

theorem foldl_processAimItem_proj (items : List Json) (st : MState) :
    ((items.foldl processAimItem st).microIds = st.microIds) ∧
    ((items.foldl processAimItem st).hierarchy = st.hierarchy) ∧
    ((items.foldl processAimItem st).refIssues = st.refIssues) ∧
    ((items.foldl processAimItem st).errors = st.errors) ∧
    ((items.foldl processAimItem st).planners = st.planners) := by
  induction items generalizing st with
  | nil => exact ⟨rfl, rfl, rfl, rfl, rfl⟩
  | cons it items ih =>
    simp only [List.foldl_cons]
    obtain ⟨h1, h2, h3, h4, h5⟩ := ih (processAimItem st it)
    obtain ⟨g1, g2, g3, g4, g5⟩ := processAimItem_proj st it
    exact ⟨h1.trans g1, h2.trans g2, h3.trans g3, h4.trans g4, h5.trans g5⟩

theorem processAimTable_proj (st : MState) (data : Json) :
    ((processAimTable st data).microIds = st.microIds) ∧
    ((processAimTable st data).hierarchy = st.hierarchy) ∧
    ((processAimTable st data).refIssues = st.refIssues) ∧
    ((processAimTable st data).errors = st.errors) ∧
    ((processAimTable st data).planners = st.planners) := by
  unfold processAimTable
  split
  · exact foldl_processAimItem_proj _ st
  · exact ⟨rfl, rfl, rfl, rfl, rfl⟩

theorem processPlanner_proj (st : MState) (file : String) (data : Json) :
    ((processPlanner st file data).aimIds = st.aimIds) ∧
    ((processPlanner st file data).microIds = st.microIds) ∧
    ((processPlanner st file data).aimsMap = st.aimsMap) ∧
    ((processPlanner st file data).hierarchy = st.hierarchy) := by
  unfold processPlanner
  dsimp only
  split <;> exact ⟨rfl, rfl, rfl, rfl⟩

theorem mem_addSet (s : List String) (x m : String) : m ∈ addSet s x ↔ m ∈ s ∨ m = x := by
  unfold addSet
  by_cases h : x ∈ s
  · rw [if_pos (by simpa using h)]
    exact ⟨Or.inl, fun o => o.elim id (fun e => e ▸ h)⟩
  · rw [if_neg (by simpa using h)]
    simp [List.mem_append]

theorem mem_addAll (xs s : List String) (m : String) : m ∈ addAll s xs ↔ m ∈ s ∨ m ∈ xs := by
  induction xs generalizing s with
  | nil => simp [addAll]
  | cons x xs ih =>
    have step : addAll s (x :: xs) = addAll (addSet s x) xs := rfl
    rw [step, ih, mem_addSet]
    simp [or_assoc]

theorem mergeStep_hierarchy_eq (st : MState) (f : MFile) :
    (mergeStep st f).hierarchy = (hierOf f).getD st.hierarchy := by
  rcases f with ⟨p, d⟩
  cases d with
  | error e => rfl
  | ok data =>
    rcases inferredKind_cases data p with hk | hk | hk | hk <;>
      simp [mergeStep, hierOf, hk, (processAimTable_proj st data).2.1,
        (processPlanner_proj st p data).2.2.2, processHierarchy]

theorem mergeStep_micro_contains (st : MState) (f : MFile) (m : String) :
    (mergeStep st f).microIds.contains m =
      (st.microIds.contains m ||
        (hierOf f).elim false (fun d => (microIdsOfHierarchy d).contains m)) := by
  rcases f with ⟨p, d⟩
  cases d with
  | error e => simp [mergeStep, hierOf]
  | ok data =>
    rcases inferredKind_cases data p with hk | hk | hk | hk <;>
      simp [mergeStep, hierOf, hk, (processAimTable_proj st data).1,
        (processPlanner_proj st p data).2.1, processHierarchy, mem_addAll]

theorem mergeFold_hierarchy (files : List MFile) (st : MState) :
    (files.foldl mergeStep st).hierarchy = (hierDocs files).getLastD st.hierarchy := by
  induction files generalizing st with
  | nil => rfl
  | cons f files ih =>
    simp only [List.foldl_cons, hierDocs, List.filterMap_cons]
    cases hf : hierOf f with
    | none =>
      rw [ih, mergeStep_hierarchy_eq, hf]
      rfl
    | some d =>
      rw [ih, mergeStep_hierarchy_eq, hf, List.getLastD_cons]
      rfl

theorem mergeFold_micro (files : List MFile) (st : MState) (m : String) :
    (files.foldl mergeStep st).microIds.contains m =
      (st.microIds.contains m ||
        (hierDocs files).any (fun d => (microIdsOfHierarchy d).contains m)) := by
  induction files generalizing st with
  | nil => simp [hierDocs]
  | cons f files ih =>
    simp only [List.foldl_cons, hierDocs, List.filterMap_cons]
    cases hf : hierOf f with
    | none =>
      rw [ih, mergeStep_micro_contains, hf]
      simp [hierDocs]
    | some d =>
      rw [ih, mergeStep_micro_contains, hf]
      simp [hierDocs, List.any_cons, Bool.or_assoc]

/-- Claim C3: the output aggregate's hierarchy equals the last Hierarchy
document in scan order (`null` when there is none), while the known-micro-ids
set collects the Micro ids of every Hierarchy document scanned, not only the
winning one. -/
theorem c3_hierarchy_last_wins (files : List MFile) (now : String) :
    (mergeAll files now).merged.hierarchy = (hierDocs files).getLastD Json.null ∧
    ∀ m : String, (mergeState files).microIds.contains m =
      (hierDocs files).any (fun d => (microIdsOfHierarchy d).contains m) := by
  constructor
  · exact mergeFold_hierarchy files {}
  · intro m
    have h := mergeFold_micro files {} m
    simpa using h

theorem mapLookup_append_single (m : List (String × Json)) (k : String) (v : Json) (id : String) :
    mapLookup (m ++ [(k, v)]) id =
      (mapLookup m id).or (if k == id then some v else none) := by
  unfold mapLookup
  rw [List.find?_append]
  cases h : List.find? (fun p => p.1 == id) m
  · cases hk : (k == id) <;> simp [h, hk, List.find?]
  · simp [h]

theorem aimItemId_pred_none {it : Json} (h : aimItemId it = none) (id : String) :
    (aimItemId it == some id) = false := by
  simp [h]

theorem aimItemId_truthy {x : Json} {s : String} (h : aimItemId x = some s) :
    x.truthy = true := by
  unfold aimItemId at h
  by_cases hg : (x.truthy && x.jsTypeofObject) = true
  · have hg2 : x.truthy = true ∧ x.jsTypeofObject = true := by simpa using hg
    exact hg2.1
  · rw [if_neg hg] at h
    exact absurd h (by simp)

theorem mapLookup_some_mem {m : List (String × Json)} {id : String} {v : Json}
    (h : mapLookup m id = some v) : ∃ p ∈ m, p.1 = id ∧ p.2 = v := by
  unfold mapLookup at h
  cases hf : m.find? (fun p => p.1 == id) with
  | none =>
    rw [hf] at h
    exact absurd h (by simp)
  | some q =>
    rw [hf] at h
    have hpred : (q.1 == id) = true := by
      have hp := List.find?_some hf
      simpa using hp
    refine ⟨q, List.mem_of_find?_eq_some hf, eq_of_beq hpred, ?_⟩
    simpa using h

theorem dictGetTruthy_of_lookup_none {m : List (String × Json)} {id : String}
    (h : mapLookup m id = none) :
    dictGetTruthy m id = objectProtoKeys.contains id := by
  unfold dictGetTruthy
  rw [h]

theorem dictGetTruthy_false_lookup {m : List (String × Json)} {id : String}
    (hinv : ∀ p ∈ m, aimItemId p.2 = some p.1)
    (h : dictGetTruthy m id = false) : mapLookup m id = none := by
  cases hlk : mapLookup m id with
  | none => rfl
  | some v =>
    exfalso
    have hdt : dictGetTruthy m id = v.truthy := by
      unfold dictGetTruthy
      rw [hlk]
    rcases mapLookup_some_mem hlk with ⟨q, hq, hq1, hq2⟩
    have ht : q.2.truthy = true := aimItemId_truthy (hinv q hq)
    rw [hq2] at ht
    rw [hdt, ht] at h
    exact absurd h (by simp)

theorem processAimItem_lookup_stable (st : MState) (it : Json) (id : String) (v : Json)
    (h : mapLookup st.aimsMap id = some v) :
    mapLookup ((processAimItem st it).aimsMap) id = some v := by
  unfold processAimItem
  cases hi : aimItemId it with
  | none => exact h
  | some id2 =>
    dsimp only
    by_cases hex : dictGetTruthy st.aimsMap id2 = true
    · rw [if_pos hex]
      exact h
    · rw [if_neg hex]
      rw [mapLookup_append_single, h]
      rfl

theorem foldl_processAimItem_lookup_stable (items : List Json) (st : MState) (id : String)
    (v : Json) (h : mapLookup st.aimsMap id = some v) :
    mapLookup ((items.foldl processAimItem st).aimsMap) id = some v := by
  induction items generalizing st with
  | nil => exact h
  | cons it items ih =>
    exact ih (processAimItem st it) (processAimItem_lookup_stable st it id v h)

theorem foldl_processAimItem_lookup_fresh (items : List Json) (st : MState) (id : String)
    (hproto : objectProtoKeys.contains id = false)
    (h : mapLookup st.aimsMap id = none) :
    mapLookup ((items.foldl processAimItem st).aimsMap) id =
      items.find? (fun it => aimItemId it == some id) := by
  induction items generalizing st with
  | nil => exact h
  | cons it items ih =>
    simp only [List.foldl_cons]
    cases hi : aimItemId it with
    | none =>
      have hstep : processAimItem st it = st := by unfold processAimItem; rw [hi]
      rw [hstep, ih st h]
      simp [List.find?_cons, hi]
    | some id2 =>
      by_cases hid : id2 = id
      · subst hid
        have hstep : mapLookup ((processAimItem st it).aimsMap) id2 = some it := by
          unfold processAimItem
          rw [hi]
          dsimp only
          rw [if_neg (by rw [dictGetTruthy_of_lookup_none h, hproto]; simp),
            mapLookup_append_single, h]
          simp
        rw [foldl_processAimItem_lookup_stable items _ id2 it hstep]
        simp [List.find?_cons, hi]
      · have hstep : mapLookup ((processAimItem st it).aimsMap) id = none := by
          unfold processAimItem
          rw [hi]
          dsimp only
          by_cases hex : dictGetTruthy st.aimsMap id2 = true
          · rw [if_pos hex]; exact h
          · rw [if_neg hex, mapLookup_append_single, h]
            simp [hid]
        rw [ih _ hstep]
        simp [List.find?_cons, hi, hid]

theorem processAimItem_lookup_proto (st : MState) (it : Json) (id : String)
    (hproto : objectProtoKeys.contains id = true)
    (h : mapLookup st.aimsMap id = none) :
    mapLookup ((processAimItem st it).aimsMap) id = none := by
  unfold processAimItem
  cases hi : aimItemId it with
  | none => exact h
  | some id2 =>
    dsimp only
    by_cases hid : id2 = id
    · subst hid
      rw [if_pos (by rw [dictGetTruthy_of_lookup_none h, hproto])]
      exact h
    · by_cases hex : dictGetTruthy st.aimsMap id2 = true
      · rw [if_pos hex]
        exact h
      · rw [if_neg hex, mapLookup_append_single, h]
        simp [hid]

theorem foldl_processAimItem_lookup_proto (items : List Json) (st : MState) (id : String)
    (hproto : objectProtoKeys.contains id = true)
    (h : mapLookup st.aimsMap id = none) :
    mapLookup ((items.foldl processAimItem st).aimsMap) id = none := by
  induction items generalizing st with
  | nil => exact h
  | cons it items ih =>
    exact ih _ (processAimItem_lookup_proto st it id hproto h)

theorem mergeStep_lookup_stable (st : MState) (f : MFile) (id : String) (v : Json)
    (h : mapLookup st.aimsMap id = some v) :
    mapLookup ((mergeStep st f).aimsMap) id = some v := by
  rcases f with ⟨p, d⟩
  cases d with
  | error e => exact h
  | ok data =>
    rcases inferredKind_cases data p with hk | hk | hk | hk
    · simp only [mergeStep, hk]
      rw [show ("aimtable" == "aimtable") = true from rfl]
      simp only [if_true]
      unfold processAimTable
      split
      · exact foldl_processAimItem_lookup_stable _ st id v h
      · exact h
    · simp only [mergeStep, hk]
      exact h
    · simp only [mergeStep, hk]
      rw [show ("plannerbundle" == "aimtable") = false from rfl,
        show ("plannerbundle" == "hierarchy") = false from rfl,
        show ("plannerbundle" == "plannerbundle") = true from rfl]
      simp only [if_false, if_true, Bool.false_eq_true]
      rw [(processPlanner_proj st p data).2.2.1]
      exact h
    · simp only [mergeStep, hk]
      exact h

theorem mergeStep_lookup_fresh (st : MState) (f : MFile) (id : String)
    (hproto : objectProtoKeys.contains id = false)
    (h : mapLookup st.aimsMap id = none) :
    mapLookup ((mergeStep st f).aimsMap) id =
      (aimItemsOf f).find? (fun it => aimItemId it == some id) := by
  rcases f with ⟨p, d⟩
  cases d with
  | error e => exact h
  | ok data =>
    rcases inferredKind_cases data p with hk | hk | hk | hk
    · simp only [mergeStep, aimItemsOf, hk]
      rw [show ("aimtable" == "aimtable") = true from rfl]
      simp only [if_true, Bool.true_and]
      unfold processAimTable
      by_cases hg : (data.truthy && (data.getProp "items").isArr) = true
      · rw [if_pos hg, if_pos hg]
        exact foldl_processAimItem_lookup_fresh _ st id hproto h
      · rw [if_neg hg, if_neg hg]
        exact h
    · simp only [mergeStep, aimItemsOf, hk]
      rw [show ("hierarchy" == "aimtable") = false from rfl]
      simp only [if_false, Bool.false_eq_true, Bool.false_and]
      exact h
    · simp only [mergeStep, aimItemsOf, hk]
      rw [show ("plannerbundle" == "aimtable") = false from rfl,
        show ("plannerbundle" == "hierarchy") = false from rfl,
        show ("plannerbundle" == "plannerbundle") = true from rfl]
      simp only [if_false, if_true, Bool.false_eq_true, Bool.false_and]
      rw [(processPlanner_proj st p data).2.2.1]
      exact h
    · simp only [mergeStep, aimItemsOf, hk]
      rw [show ("unknown" == "aimtable") = false from rfl,
        show ("unknown" == "hierarchy") = false from rfl,
        show ("unknown" == "plannerbundle") = false from rfl]
      simp only [if_false, Bool.false_eq_true, Bool.false_and]
      exact h

theorem mergeStep_lookup_proto (st : MState) (f : MFile) (id : String)
    (hproto : objectProtoKeys.contains id = true)
    (h : mapLookup st.aimsMap id = none) :
    mapLookup ((mergeStep st f).aimsMap) id = none := by
  rcases f with ⟨p, d⟩
  cases d with
  | error e => exact h
  | ok data =>
    rcases inferredKind_cases data p with hk | hk | hk | hk
    · simp only [mergeStep, hk]
      rw [show ("aimtable" == "aimtable") = true from rfl]
      simp only [if_true]
      unfold processAimTable
      split
      · exact foldl_processAimItem_lookup_proto _ st id hproto h
      · exact h
    · simp only [mergeStep, hk]
      exact h
    · simp only [mergeStep, hk]
      rw [show ("plannerbundle" == "aimtable") = false from rfl,
        show ("plannerbundle" == "hierarchy") = false from rfl,
        show ("plannerbundle" == "plannerbundle") = true from rfl]
      simp only [if_false, if_true, Bool.false_eq_true]
      rw [(processPlanner_proj st p data).2.2.1]
      exact h
    · simp only [mergeStep, hk]
      exact h

theorem mergeFold_lookup_proto (files : List MFile) (st : MState) (id : String)
    (hproto : objectProtoKeys.contains id = true)
    (h : mapLookup st.aimsMap id = none) :
    mapLookup ((files.foldl mergeStep st).aimsMap) id = none := by
  induction files generalizing st with
  | nil => exact h
  | cons f files ih =>
    exact ih _ (mergeStep_lookup_proto st f id hproto h)

theorem mergeFold_lookup_fresh (files : List MFile) (st : MState) (id : String)
    (hproto : objectProtoKeys.contains id = false)
    (h : mapLookup st.aimsMap id = none) :
    mapLookup ((files.foldl mergeStep st).aimsMap) id = firstAimItem files id := by
  induction files generalizing st with
  | nil => exact h
  | cons f files ih =>
    simp only [List.foldl_cons, firstAimItem, List.flatMap_cons, List.find?_append]
    cases hf : (aimItemsOf f).find? (fun it => aimItemId it == some id) with
    | none =>
      have hstep : mapLookup ((mergeStep st f).aimsMap) id = none :=
        (mergeStep_lookup_fresh st f id hproto h).trans hf
      rw [ih _ hstep]
      rfl
    | some v =>
      have hstep : mapLookup ((mergeStep st f).aimsMap) id = some v :=
        (mergeStep_lookup_fresh st f id hproto h).trans hf
      have hall : ∀ (files2 : List MFile) (st2 : MState), mapLookup st2.aimsMap id = some v →
          mapLookup ((files2.foldl mergeStep st2).aimsMap) id = some v := by
        intro files2
        induction files2 with
        | nil => intro st2 h2; exact h2
        | cons g files2 ih2 =>
          intro st2 h2
          exact ih2 _ (mergeStep_lookup_stable st2 g id v h2)
      rw [hall files _ hstep]
      rfl

theorem mapLookup_eq_none_iff (m : List (String × Json)) (id : String) :
    mapLookup m id = none ↔ List.find? (fun p => p.1 == id) m = none := by
  unfold mapLookup
  cases List.find? (fun p => p.1 == id) m <;> simp

theorem processAimItem_inv (st : MState) (it : Json)
    (h1 : ∀ p ∈ st.aimsMap, aimItemId p.2 = some p.1)
    (h2 : (st.aimsMap.map (fun p => p.1)).Nodup) :
    (∀ p ∈ (processAimItem st it).aimsMap, aimItemId p.2 = some p.1) ∧
    ((processAimItem st it).aimsMap.map (fun p => p.1)).Nodup := by
  unfold processAimItem
  cases hi : aimItemId it with
  | none => exact ⟨h1, h2⟩
  | some id2 =>
    dsimp only
    by_cases hex : dictGetTruthy st.aimsMap id2 = true
    · rw [if_pos hex]
      exact ⟨h1, h2⟩
    · rw [if_neg hex]
      dsimp only
      have hfalse : dictGetTruthy st.aimsMap id2 = false := by
        revert hex
        cases dictGetTruthy st.aimsMap id2 <;> simp
      have hnone : mapLookup st.aimsMap id2 = none :=
        dictGetTruthy_false_lookup h1 hfalse
      have hnotin : id2 ∉ st.aimsMap.map (fun p => p.1) := by
        intro hmem
        rcases List.mem_map.mp hmem with ⟨p, hp, hkey⟩
        have hnp := List.find?_eq_none.mp ((mapLookup_eq_none_iff _ _).mp hnone) p hp
        exact hnp (by simp [hkey])
      refine ⟨?_, ?_⟩
      · intro p hp
        rcases List.mem_append.mp hp with hp | hp
        · exact h1 p hp
        · have hp' : p = (id2, it) := List.mem_singleton.mp hp
          subst hp'
          simpa using hi
      · rw [List.map_append]
        simp [List.nodup_append, h2, hnotin]

theorem foldl_processAimItem_inv (items : List Json) (st : MState)
    (h1 : ∀ p ∈ st.aimsMap, aimItemId p.2 = some p.1)
    (h2 : (st.aimsMap.map (fun p => p.1)).Nodup) :
    (∀ p ∈ (items.foldl processAimItem st).aimsMap, aimItemId p.2 = some p.1) ∧
    ((items.foldl processAimItem st).aimsMap.map (fun p => p.1)).Nodup := by
  induction items generalizing st with
  | nil => exact ⟨h1, h2⟩
  | cons it items ih =>
    obtain ⟨g1, g2⟩ := processAimItem_inv st it h1 h2
    exact ih _ g1 g2

theorem mergeStep_inv (st : MState) (f : MFile)
    (h1 : ∀ p ∈ st.aimsMap, aimItemId p.2 = some p.1)
    (h2 : (st.aimsMap.map (fun p => p.1)).Nodup) :
    (∀ p ∈ (mergeStep st f).aimsMap, aimItemId p.2 = some p.1) ∧
    ((mergeStep st f).aimsMap.map (fun p => p.1)).Nodup := by
  rcases f with ⟨p, d⟩
  cases d with
  | error e => exact ⟨h1, h2⟩
  | ok data =>
    rcases inferredKind_cases data p with hk | hk | hk | hk
    · simp only [mergeStep, hk]
      rw [show ("aimtable" == "aimtable") = true from rfl]
      simp only [if_true]
      unfold processAimTable
      split
      · exact foldl_processAimItem_inv _ st h1 h2
      · exact ⟨h1, h2⟩
    · simp only [mergeStep, hk]
      exact ⟨h1, h2⟩
    · simp only [mergeStep, hk]
      rw [show ("plannerbundle" == "aimtable") = false from rfl,
        show ("plannerbundle" == "hierarchy") = false from rfl,
        show ("plannerbundle" == "plannerbundle") = true from rfl]
      simp only [if_false, if_true, Bool.false_eq_true]
      rw [(processPlanner_proj st p data).2.2.1]
      exact ⟨h1, h2⟩
    · simp only [mergeStep, hk]
      exact ⟨h1, h2⟩

theorem mergeState_aimsMap_inv (files : List MFile) :
    (∀ p ∈ (mergeState files).aimsMap, aimItemId p.2 = some p.1) ∧
    ((mergeState files).aimsMap.map (fun p => p.1)).Nodup := by
  suffices h : ∀ (fs : List MFile) (st : MState),
      (∀ p ∈ st.aimsMap, aimItemId p.2 = some p.1) →
      (st.aimsMap.map (fun p => p.1)).Nodup →
      (∀ p ∈ (fs.foldl mergeStep st).aimsMap, aimItemId p.2 = some p.1) ∧
      ((fs.foldl mergeStep st).aimsMap.map (fun p => p.1)).Nodup by
    exact h files {} (by intro p hp; cases hp) (by simp)
  intro fs
  induction fs with
  | nil => intro st g1 g2; exact ⟨g1, g2⟩
  | cons f fs ih =>
    intro st g1 g2
    obtain ⟨k1, k2⟩ := mergeStep_inv st f g1 g2
    exact ih _ k1 k2

theorem aims_filter_eq (m : List (String × Json)) (id : String) (it : Json)
    (hinv : ∀ p ∈ m, aimItemId p.2 = some p.1)
    (hnd : (m.map (fun p => p.1)).Nodup)
    (hl : mapLookup m id = some it) :
    (m.map (fun p => p.2)).filter (fun e => aimItemId e == some id) = [it] := by
  induction m with
  | nil => simp [mapLookup] at hl
  | cons q m ih =>
    obtain ⟨k, v⟩ := q
    have hv : aimItemId v = some k := hinv (k, v) (List.mem_cons_self _ _)
    have hnd1 : (k :: m.map (fun p => p.1)).Nodup := by simpa using hnd
    have hnd0 := List.nodup_cons.mp hnd1
    by_cases hk : k = id
    · subst hk
      have hv' : v = it := by
        have hlk : mapLookup ((k, v) :: m) k = some v := by
          simp [mapLookup, List.find?_cons]
        rw [hlk] at hl
        exact Option.some.inj hl
      subst hv'
      have hpred : (aimItemId v == some k) = true := by simp [hv]
      have htail : (m.map (fun p => p.2)).filter (fun e => aimItemId e == some k) = [] := by
        rw [List.filter_eq_nil_iff]
        intro e he
        rcases List.mem_map.mp he with ⟨q2, hq2, hq2e⟩
        have hq1 : aimItemId q2.2 = some q2.1 := hinv q2 (List.mem_cons_of_mem _ hq2)
        have hne : q2.1 ≠ k := fun hh => hnd0.1 (hh ▸ List.mem_map_of_mem _ hq2)
        subst hq2e
        simp [hq1, hne]
      simp [List.filter_cons, hpred, htail]
    · have hpred : (aimItemId v == some id) = false := by simp [hv, hk]
      have hl' : mapLookup m id = some it := by
        have hkid : (k == id) = false := by simp [hk]
        simpa [mapLookup, List.find?_cons, hkid] using hl
      have hinv' : ∀ p ∈ m, aimItemId p.2 = some p.1 :=
        fun p hp => hinv p (List.mem_cons_of_mem _ hp)
      simp only [List.map_cons, List.filter_cons, hpred, Bool.false_eq_true, if_false]
      exact ih hinv' hnd0.2 hl'

theorem aims_filter_none (m : List (String × Json)) (id : String)
    (hinv : ∀ p ∈ m, aimItemId p.2 = some p.1)
    (hl : mapLookup m id = none) :
    (m.map (fun p => p.2)).filter (fun e => aimItemId e == some id) = [] := by
  rw [List.filter_eq_nil_iff]
  intro e he
  rcases List.mem_map.mp he with ⟨q, hq, hqe⟩
  have hq1 : aimItemId q.2 = some q.1 := hinv q hq
  have hnp := List.find?_eq_none.mp ((mapLookup_eq_none_iff _ _).mp hl) q hq
  have hne : q.1 ≠ id := fun hh => hnp (by simp [hh])
  subst hqe
  simp [hq1, hne]

/-- Claim C1, counterexample: an aim id that names an `Object.prototype`
property, such as `constructor`, finds the inherited property truthy, so the
`!aimsMap[item.id]` guard fails even on the first occurrence: the item is
never stored and the aims list stays empty, although the id occurs in an
ingested AimTable document (and still enters the known-aim-ids set). -/
theorem c1_counterexample :
    firstAimItem filesProto "constructor" = some (Json.obj [("id", Json.str "constructor")]) ∧
    (mergeAll filesProto "t").merged.aims = [] ∧
    ((mergeAll filesProto "t").merged.aims).filter
      (fun e => aimItemId e == some "constructor") = [] ∧
    (mergeState filesProto).aimIds = ["constructor"] :=
  ⟨rfl, rfl, rfl, rfl⟩

/-- Claim C1, amended: for every aim id occurring in some ingested AimTable
document that is not one of the `Object.prototype` property names, the
surviving entry of the aggregate's aims list is the earliest item (in file
scan order, then item order) bearing that id, and later items with the same
id leave it unchanged; an id that names an `Object.prototype` property is
never stored, so the filtered aims list is empty for it. -/
theorem c1_first_aim_wins_amended :
    (∀ (files : List MFile) (now : String) (id : String) (it : Json),
      objectProtoKeys.contains id = false →
      firstAimItem files id = some it →
      ((mergeAll files now).merged.aims).filter (fun e => aimItemId e == some id) = [it]) ∧
    (∀ (files : List MFile) (now : String) (id : String),
      objectProtoKeys.contains id = true →
      ((mergeAll files now).merged.aims).filter (fun e => aimItemId e == some id) = []) := by
  constructor
  · intro files now id it hproto h
    have hlk : mapLookup (mergeState files).aimsMap id = some it := by
      unfold mergeState
      rw [mergeFold_lookup_fresh files {} id hproto rfl]
      exact h
    obtain ⟨h1, h2⟩ := mergeState_aimsMap_inv files
    exact aims_filter_eq _ id it h1 h2 hlk
  · intro files now id hproto
    have hlk : mapLookup (mergeState files).aimsMap id = none := by
      unfold mergeState
      exact mergeFold_lookup_proto files {} id hproto rfl
    obtain ⟨h1, _⟩ := mergeState_aimsMap_inv files
    exact aims_filter_none _ id h1 hlk

/-- Witness for C1 (amended): the ordinary id `A1`, defined with different
payloads in batches b1 and b2, keeps exactly the b1 item, while the
prototype-colliding id `constructor` yields no surviving entry. -/
theorem c1_first_aim_wins_amended_witness :
    (objectProtoKeys.contains "A1" = false ∧
      firstAimItem filesA "A1" =
        some (Json.obj [("id", Json.str "A1"), ("note", Json.str "first")]) ∧
      ((mergeAll filesA "t").merged.aims).filter (fun e => aimItemId e == some "A1") =
        [Json.obj [("id", Json.str "A1"), ("note", Json.str "first")]]) ∧
    (objectProtoKeys.contains "constructor" = true ∧
      ((mergeAll filesProto "t").merged.aims).filter
        (fun e => aimItemId e == some "constructor") = []) :=
  ⟨⟨rfl, rfl, c1_first_aim_wins_amended.1 filesA "t" "A1" _ rfl rfl⟩,
   ⟨rfl, c1_first_aim_wins_amended.2 filesProto "t" "constructor" rfl⟩⟩

theorem seqWalk_err_congr (f g : Nat → Json → List RefIssue × Option String)
    (h : ∀ i x, (f i x).2 = (g i x).2) :
    ∀ (i : Nat) (l : List Json), (seqWalk f i l).2 = (seqWalk g i l).2 := by
  intro i l
  induction l generalizing i with
  | nil => rfl
  | cons x xs ih =>
    simp only [seqWalk]
    have hg : (g i x).2 = (f i x).2 := (h i x).symm
    rw [hg]
    cases hf : (f i x).2 with
    | some e => rfl
    | none => simpa using ih (i + 1)

theorem walkPath_err (A M A2 M2 : List String) (file : String) (proj : Json)
    (pIdx pathIdx : Nat) (pth : Json) :
    (walkPath A M file proj pIdx pathIdx pth).2 = (walkPath A2 M2 file proj pIdx pathIdx pth).2 := by
  unfold walkPath
  cases jsGet pth "slices" <;> rfl

theorem walkProj_err (A M A2 M2 : List String) (file : String) (pIdx : Nat) (proj : Json) :
    (walkProj A M file pIdx proj).2 = (walkProj A2 M2 file pIdx proj).2 := by
  unfold walkProj
  cases jsGet proj "paths" with
  | error e => rfl
  | ok v =>
    exact seqWalk_err_congr _ _ (fun i x => walkPath_err A M A2 M2 file proj pIdx i x) 0 v.arrOrEmpty

theorem walkPlanner_err (A M A2 M2 : List String) (file : String) (data : Json) :
    (walkPlanner A M file data).2 = (walkPlanner A2 M2 file data).2 := by
  unfold walkPlanner
  cases jsGet data "projects" with
  | error e => rfl
  | ok v =>
    exact seqWalk_err_congr _ _ (fun i x => walkProj_err A M A2 M2 file i x) 0 v.arrOrEmpty

theorem processAimItem_errshift (st : MState) (E : List String) (it : Json) :
    processAimItem { st with errors := E } it = { processAimItem st it with errors := E } := by
  unfold processAimItem
  cases aimItemId it with
  | none => rfl
  | some id2 =>
    dsimp only
    split
    · rfl
    · rfl

theorem foldl_processAimItem_errshift (items : List Json) (st : MState) (E : List String) :
    items.foldl processAimItem { st with errors := E } =
      { items.foldl processAimItem st with errors := E } := by
  induction items generalizing st with
  | nil => rfl
  | cons it items ih =>
    simp only [List.foldl_cons]
    rw [processAimItem_errshift, ih]

theorem processAimTable_errshift (st : MState) (E : List String) (data : Json) :
    processAimTable { st with errors := E } data = { processAimTable st data with errors := E } := by
  unfold processAimTable
  split
  · exact foldl_processAimItem_errshift _ st E
  · rfl

theorem processPlanner_errshift (st : MState) (E : List String) (file : String) (data : Json) :
    processPlanner { st with errors := E } file data =
      { processPlanner st file data with errors :=
          E ++ (match (walkPlanner st.aimIds st.microIds (basename file) data).2 with
            | some e => ["Ref-check crashed on " ++ basename file ++ ": " ++ e]
            | none => []) } := by
  unfold processPlanner
  dsimp only
  cases hw : (walkPlanner st.aimIds st.microIds (basename file) data).2 with
  | some e => rfl
  | none => simp

theorem mergeStep_errors_irrel (st : MState) (E : List String) (f : MFile) :
    mergeStep { st with errors := E } f = { mergeStep st f with errors := E ++ errOf f } := by
  rcases f with ⟨p, d⟩
  cases d with
  | error e => rfl
  | ok data =>
    rcases inferredKind_cases data p with hk | hk | hk | hk
    · simp only [mergeStep, errOf, hk]
      rw [show ("aimtable" == "aimtable") = true from rfl]
      simp only [if_true]
      rw [processAimTable_errshift, List.append_nil]
    · simp only [mergeStep, errOf, hk]
      rw [show ("hierarchy" == "aimtable") = false from rfl,
        show ("hierarchy" == "hierarchy") = true from rfl]
      simp only [if_false, if_true, Bool.false_eq_true]
      rw [List.append_nil]
      rfl
    · simp only [mergeStep, errOf, hk]
      rw [show ("plannerbundle" == "aimtable") = false from rfl,
        show ("plannerbundle" == "hierarchy") = false from rfl,
        show ("plannerbundle" == "plannerbundle") = true from rfl]
      simp only [if_false, if_true, Bool.false_eq_true]
      rw [processPlanner_errshift,
        walkPlanner_err [] [] st.aimIds st.microIds (basename p) data]
    · simp only [mergeStep, errOf, hk]
      rw [show ("unknown" == "aimtable") = false from rfl,
        show ("unknown" == "hierarchy") = false from rfl,
        show ("unknown" == "plannerbundle") = false from rfl]
      simp only [if_false, Bool.false_eq_true]

theorem mergeFold_errors_irrel (files : List MFile) (st : MState) (E : List String) :
    files.foldl mergeStep { st with errors := E } =
      { files.foldl mergeStep st with errors := E ++ files.flatMap errOf } := by
  induction files generalizing st E with
  | nil => rw [List.flatMap_nil, List.append_nil]; rfl
  | cons f files ih =>
    simp only [List.foldl_cons, List.flatMap_cons]
    rw [mergeStep_errors_irrel, ih, List.append_assoc]

theorem mergeFold_errors (files : List MFile) (st : MState) :
    (files.foldl mergeStep st).errors = st.errors ++ files.flatMap errOf := by
  have h : files.foldl mergeStep { st with errors := st.errors } =
      { files.foldl mergeStep st with errors := st.errors ++ files.flatMap errOf } :=
    mergeFold_errors_irrel files st st.errors
  calc (files.foldl mergeStep st).errors
      = (files.foldl mergeStep { st with errors := st.errors }).errors := rfl
    _ = st.errors ++ files.flatMap errOf := by rw [h]

theorem mergeStep_planners (st : MState) (f : MFile) :
    (mergeStep st f).planners = st.planners ++ plannersOf f := by
  rcases f with ⟨p, d⟩
  cases d with
  | error e => simp [mergeStep, plannersOf]
  | ok data =>
    rcases inferredKind_cases data p with hk | hk | hk | hk
    · simp only [mergeStep, plannersOf, hk]
      rw [show ("aimtable" == "aimtable") = true from rfl]
      simp only [if_true]
      rw [(processAimTable_proj st data).2.2.2.2]
      simp
    · simp only [mergeStep, plannersOf, hk]
      rw [show ("hierarchy" == "aimtable") = false from rfl,
        show ("hierarchy" == "hierarchy") = true from rfl]
      simp [processHierarchy]
    · simp only [mergeStep, plannersOf, hk]
      rw [show ("plannerbundle" == "aimtable") = false from rfl,
        show ("plannerbundle" == "hierarchy") = false from rfl,
        show ("plannerbundle" == "plannerbundle") = true from rfl]
      simp only [if_false, if_true, Bool.false_eq_true]
      unfold processPlanner
      dsimp only
      cases hw : (walkPlanner st.aimIds st.microIds (basename p) data).2 <;> rfl
    · simp only [mergeStep, plannersOf, hk]
      rw [show ("unknown" == "aimtable") = false from rfl,
        show ("unknown" == "hierarchy") = false from rfl,
        show ("unknown" == "plannerbundle") = false from rfl]
      simp

theorem mergeFold_planners (files : List MFile) (st : MState) :
    (files.foldl mergeStep st).planners = st.planners ++ files.flatMap plannersOf := by
  induction files generalizing st with
  | nil => simp
  | cons f files ih =>
    simp only [List.foldl_cons, List.flatMap_cons]
    rw [ih, mergeStep_planners, List.append_assoc]

theorem mergeState_insert_error (pre suf : List MFile) (p e : String) :
    mergeState (pre ++ (p, Except.error e) :: suf) =
      { mergeState (pre ++ suf) with errors :=
          (mergeState pre).errors ++ ("Failed to parse " ++ p ++ ": " ++ e) :: suf.flatMap errOf } := by
  unfold mergeState
  rw [List.foldl_append, List.foldl_cons, List.foldl_append]
  have hstep : mergeStep (pre.foldl mergeStep {}) (p, Except.error e) =
      { pre.foldl mergeStep {} with
        errors := (pre.foldl mergeStep {}).errors ++ ["Failed to parse " ++ p ++ ": " ++ e] } := rfl
  rw [hstep, mergeFold_errors_irrel, List.append_assoc, List.singleton_append]

/-- Claim C6: a file that fails to parse contributes exactly one error string
naming the file, leaves the aggregate's aims, hierarchy, planners and the
reference issues unchanged, and does not stop processing of the remaining
files; a crash while walking one PlannerBundle's nested structure is caught,
recorded as an error tagged with that file's basename, and the planner itself
and all other files are still processed. -/
theorem c6_bad_documents :
    (∀ (pre suf : List MFile) (now p e : String),
      (mergeAll (pre ++ (p, Except.error e) :: suf) now).report.errors =
        (mergeState pre).errors ++ ("Failed to parse " ++ p ++ ": " ++ e) ::
          (mergeState suf).errors ∧
      (mergeAll (pre ++ (p, Except.error e) :: suf) now).merged.aims =
        (mergeAll (pre ++ suf) now).merged.aims ∧
      (mergeAll (pre ++ (p, Except.error e) :: suf) now).merged.hierarchy =
        (mergeAll (pre ++ suf) now).merged.hierarchy ∧
      (mergeAll (pre ++ (p, Except.error e) :: suf) now).merged.planners =
        (mergeAll (pre ++ suf) now).merged.planners ∧
      (mergeAll (pre ++ (p, Except.error e) :: suf) now).report.refIssues =
        (mergeAll (pre ++ suf) now).report.refIssues) ∧
    (∀ (pre suf : List MFile) (now p : String) (d : Json) (e : String),
      inferredKind d p = "plannerbundle" →
      (walkPlanner [] [] (basename p) d).2 = some e →
      (mergeAll (pre ++ (p, Except.ok d) :: suf) now).report.errors =
        (mergeState pre).errors ++ ("Ref-check crashed on " ++ basename p ++ ": " ++ e) ::
          (mergeState suf).errors ∧
      (mergeAll (pre ++ (p, Except.ok d) :: suf) now).merged.planners =
        (mergeState pre).planners ++ mkPlanner p d :: (mergeState suf).planners) := by
  have hsuferr : ∀ suf : List MFile, (mergeState suf).errors = suf.flatMap errOf := by
    intro suf
    have h := mergeFold_errors suf {}
    simpa [mergeState] using h
  have hsufpl : ∀ suf : List MFile, (mergeState suf).planners = suf.flatMap plannersOf := by
    intro suf
    have h := mergeFold_planners suf {}
    simpa [mergeState] using h
  constructor
  · intro pre suf now p e
    have hs := mergeState_insert_error pre suf p e
    refine ⟨?_, ?_, ?_, ?_, ?_⟩
    · show (mergeState (pre ++ (p, Except.error e) :: suf)).errors = _
      rw [hs, hsuferr suf]
    · show ((mergeState (pre ++ (p, Except.error e) :: suf)).aimsMap.map (fun q => q.2)) = _
      rw [hs]
      rfl
    · show (mergeState (pre ++ (p, Except.error e) :: suf)).hierarchy = _
      rw [hs]
      rfl
    · show (mergeState (pre ++ (p, Except.error e) :: suf)).planners = _
      rw [hs]
      rfl
    · show (mergeState (pre ++ (p, Except.error e) :: suf)).refIssues = _
      rw [hs]
      rfl
  · intro pre suf now p d e hk hw
    have herr : errOf (p, Except.ok d) =
        ["Ref-check crashed on " ++ basename p ++ ": " ++ e] := by
      simp only [errOf, hk]
      rw [show ("plannerbundle" == "aimtable") = false from rfl,
        show ("plannerbundle" == "hierarchy") = false from rfl,
        show ("plannerbundle" == "plannerbundle") = true from rfl]
      simp only [if_false, if_true, Bool.false_eq_true]
      rw [hw]
    have hpl : plannersOf (p, Except.ok d) = [mkPlanner p d] := by
      simp only [plannersOf, hk]
      rw [show ("plannerbundle" == "plannerbundle") = true from rfl]
      simp
    constructor
    · show (mergeState (pre ++ (p, Except.ok d) :: suf)).errors = _
      have h := mergeFold_errors (pre ++ (p, Except.ok d) :: suf) ({} : MState)
      rw [show mergeState (pre ++ (p, Except.ok d) :: suf) =
        (pre ++ (p, Except.ok d) :: suf).foldl mergeStep {} from rfl, h]
      rw [List.flatMap_append, List.flatMap_cons, herr, hsuferr suf]
      rw [show (mergeState pre).errors = pre.flatMap errOf from hsuferr pre]
      simp
    · show (mergeState (pre ++ (p, Except.ok d) :: suf)).planners = _
      have h := mergeFold_planners (pre ++ (p, Except.ok d) :: suf) ({} : MState)
      rw [show mergeState (pre ++ (p, Except.ok d) :: suf) =
        (pre ++ (p, Except.ok d) :: suf).foldl mergeStep {} from rfl, h]
      rw [List.flatMap_append, List.flatMap_cons, hpl, hsufpl suf]
      rw [show (mergeState pre).planners = pre.flatMap plannersOf from hsufpl pre]
      simp

/-- Witness for C6: a malformed file among the fixtures yields exactly its
parse error, and a planner whose project list holds `null` yields exactly the
caught crash error, in both cases with the other files still processed. -/
theorem c6_bad_documents_witness :
    (mergeAll ([] ++ ("imports/b1/bad.json", Except.error "boom") :: filesA) "t").report.errors =
      (mergeState []).errors ++ ("Failed to parse " ++ "imports/b1/bad.json" ++ ": " ++ "boom") ::
        (mergeState filesA).errors ∧
    (mergeAll ([] ++ ("imports/b0/plannerbundle.v1.import.json", Except.ok plannerDoc3) :: filesA)
        "t").report.errors =
      (mergeState []).errors ++ ("Ref-check crashed on " ++
          basename "imports/b0/plannerbundle.v1.import.json" ++ ": " ++
          "Cannot read properties of null (reading 'paths')") :: (mergeState filesA).errors :=
  ⟨(c6_bad_documents.1 [] filesA "t" "imports/b1/bad.json" "boom").1,
   (c6_bad_documents.2 [] filesA "t" "imports/b0/plannerbundle.v1.import.json" plannerDoc3
      "Cannot read properties of null (reading 'paths')" rfl rfl).1⟩

theorem jsGet_ok {j : Json} {k : String} {v : Json} (h : jsGet j k = .ok v) :
    j.getProp k = v := by
  unfold jsGet at h
  cases j <;> simp_all

theorem seqWalk_none (f : Nat → Json → List RefIssue × Option String) :
    ∀ (l : List Json) (n : Nat) (is : List RefIssue), seqWalk f n l = (is, none) →
      is = ((List.enumFrom n l).map (fun ix => (f ix.1 ix.2).1)).flatten ∧
      ∀ ix ∈ List.enumFrom n l, (f ix.1 ix.2).2 = none := by
  intro l
  induction l with
  | nil =>
    intro n is h
    simp only [seqWalk, Prod.mk.injEq] at h
    exact ⟨h.1.symm, by simp⟩
  | cons x xs ih =>
    intro n is h
    simp only [seqWalk] at h
    cases hf : (f n x).2 with
    | some e =>
      rw [hf] at h
      simp at h
    | none =>
      rw [hf] at h
      cases hrest : seqWalk f (n + 1) xs with
      | mk ris re =>
        rw [hrest] at h
        simp only [Prod.mk.injEq] at h
        obtain ⟨hA, hB⟩ := h
        subst hB
        obtain ⟨ih1, ih2⟩ := ih (n + 1) ris hrest
        constructor
        · rw [← hA, ih1]
          rfl
        · intro ix hix
          rcases List.mem_cons.mp (by simpa using hix) with hh | hh
          · subst hh
            exact hf
          · exact ih2 ix hh

theorem walkPath_none (A M : List String) (file : String) (proj : Json) (pIdx pathIdx : Nat)
    (pth : Json) (is : List RefIssue) (h : walkPath A M file proj pIdx pathIdx pth = (is, none)) :
    is = (slicesOf pth).enum.flatMap
      (fun rk => walkSlice A M file proj pIdx pth pathIdx rk.2 rk.1) := by
  unfold walkPath at h
  cases hj : jsGet pth "slices" with
  | error e =>
    rw [hj] at h
    simp at h
  | ok v =>
    rw [hj] at h
    simp only [Prod.mk.injEq] at h
    rw [← h.1, slicesOf, jsGet_ok hj, List.flatMap_def]

theorem walkProj_none (A M : List String) (file : String) (pIdx : Nat) (proj : Json)
    (is : List RefIssue) (h : walkProj A M file pIdx proj = (is, none)) :
    is = (pathsOf proj).enum.flatMap (fun qj =>
      (slicesOf qj.2).enum.flatMap
        (fun rk => walkSlice A M file proj pIdx qj.2 qj.1 rk.2 rk.1)) := by
  unfold walkProj at h
  cases hj : jsGet proj "paths" with
  | error e =>
    rw [hj] at h
    simp at h
  | ok v =>
    rw [hj] at h
    obtain ⟨h1, h2⟩ := seqWalk_none _ _ _ _ h
    rw [h1, pathsOf, jsGet_ok hj, List.flatMap_def]
    show (((List.enumFrom 0 v.arrOrEmpty).map
      (fun ix => (walkPath A M file proj pIdx ix.1 ix.2).1)).flatten) = _
    congr 1
    apply List.map_congr_left
    intro qj hqj
    cases hw : walkPath A M file proj pIdx qj.1 qj.2 with
    | mk wis we =>
      have hnone : we = none := by
        have := h2 qj hqj
        rw [hw] at this
        exact this
      subst hnone
      have := walkPath_none A M file proj pIdx qj.1 qj.2 wis hw
      simpa using this

theorem walkPlanner_none (A M : List String) (file : String) (data : Json)
    (is : List RefIssue) (h : walkPlanner A M file data = (is, none)) :
    is = plannerIssuesTotal A M file data := by
  unfold walkPlanner at h
  cases hj : jsGet data "projects" with
  | error e =>
    rw [hj] at h
    simp at h
  | ok v =>
    rw [hj] at h
    obtain ⟨h1, h2⟩ := seqWalk_none _ _ _ _ h
    rw [h1]
    unfold plannerIssuesTotal
    rw [projectsOf, jsGet_ok hj, List.flatMap_def]
    show (((List.enumFrom 0 v.arrOrEmpty).map
      (fun ix => (walkProj A M file ix.1 ix.2).1)).flatten) = _
    congr 1
    apply List.map_congr_left
    intro pi hpi
    cases hw : walkProj A M file pi.1 pi.2 with
    | mk wis we =>
      have hnone : we = none := by
        have := h2 pi hpi
        rw [hw] at this
        exact this
      subst hnone
      have := walkProj_none A M file pi.1 pi.2 wis hw
      simpa using this

theorem filterMap_enumFrom_filter_index (f : Nat × Json → Option RefIssue) (T : String)
    (hidx : ∀ i x ri, f (i, x) = some ri → ri.type = T ∧ ri.index = i) :
    ∀ (cs : List Json) (n c : Nat) (co : Json), cs[c]? = some co →
      ((List.enumFrom n cs).filterMap f).filter
        (fun ri => ri.type == T && ri.index == n + c) = (f (n + c, co)).toList := by
  intro cs
  induction cs with
  | nil =>
    intro n c co h
    simp at h
  | cons x xs ih =>
    intro n c co h
    have htail0 : ∀ (k : Nat), k < n + 1 →
        ((List.enumFrom (n + 1) xs).filterMap f).filter
          (fun ri => ri.type == T && ri.index == k) = [] := by
      intro k hk
      apply List.filter_eq_nil_iff.mpr
      intro ri hri
      rcases List.mem_filterMap.mp hri with ⟨⟨i, y⟩, hiy, hfy⟩
      obtain ⟨ht, hidxeq⟩ := hidx i y ri hfy
      have hige := (List.mem_enumFrom hiy).1
      have : ri.index ≠ k := by omega
      simp [this]
    rw [show List.enumFrom n (x :: xs) = (n, x) :: List.enumFrom (n + 1) xs from rfl,
      List.filterMap_cons]
    cases c with
    | zero =>
      have hx : co = x := by simpa using h.symm
      subst hx
      cases hf : f (n, co) with
      | none =>
        rw [Nat.add_zero, hf]
        exact htail0 n (by omega)
      | some ri0 =>
        obtain ⟨ht, hidx0⟩ := hidx n co ri0 hf
        rw [Nat.add_zero, hf, List.filter_cons]
        have hpred : (ri0.type == T && ri0.index == n) = true := by
          simp [ht, hidx0]
        rw [hpred]
        simp only [if_true]
        rw [htail0 n (by omega)]
        rfl
    | succ c2 =>
      have h2 : xs[c2]? = some co := by simpa using h
      have harith : n + (c2 + 1) = (n + 1) + c2 := by omega
      cases hf : f (n, x) with
      | none =>
        rw [harith]
        exact ih (n + 1) c2 co h2
      | some ri0 =>
        obtain ⟨ht, hidx0⟩ := hidx n x ri0 hf
        rw [List.filter_cons]
        have hpred : (ri0.type == T && ri0.index == n + (c2 + 1)) = false := by
          have hne : ri0.index ≠ n + (c2 + 1) := by omega
          simp [hne]
        rw [hpred]
        simp only [Bool.false_eq_true, if_false]
        rw [harith]
        exact ih (n + 1) c2 co h2

theorem aimCalloutIssues_filter_index (A : List String) (file : String) (proj : Json)
    (pIdx : Nat) (pth : Json) (pathIdx : Nat) (sl : Json) (sIdx : Nat)
    (cs : List Json) (c : Nat) (co : Json) (a : String)
    (hc : cs[c]? = some co) (ha : calloutAimVal co = Json.str a) :
    (aimCalloutIssues A file proj pIdx pth pathIdx sl sIdx cs).filter
      (fun ri => ri.type == "aimId-not-found" && ri.index == c) =
      (if A.contains a then [] else [mkAimIssue a file proj pIdx pth pathIdx sl sIdx c]) := by
  have hidx : ∀ (i : Nat) (x : Json) (ri : RefIssue),
      (fun ci : Nat × Json =>
        match calloutAimVal ci.2 with
        | .str s => if A.contains s then none
          else some (mkAimIssue s file proj pIdx pth pathIdx sl sIdx ci.1)
        | _ => none) (i, x) = some ri →
      ri.type = "aimId-not-found" ∧ ri.index = i := by
    intro i x ri hf
    dsimp only at hf
    split at hf
    · split at hf
      · exact absurd hf (by simp)
      · have hri := Option.some.inj hf
        rw [← hri]
        exact ⟨rfl, rfl⟩
    · exact absurd hf (by simp)
  have h := filterMap_enumFrom_filter_index
    (fun ci : Nat × Json =>
      match calloutAimVal ci.2 with
      | .str s => if A.contains s then none
        else some (mkAimIssue s file proj pIdx pth pathIdx sl sIdx ci.1)
      | _ => none) "aimId-not-found" hidx cs 0 c co hc
  rw [Nat.zero_add] at h
  unfold aimCalloutIssues
  rw [show cs.enum = List.enumFrom 0 cs from rfl, h]
  dsimp only
  rw [ha]
  dsimp only
  by_cases hA : A.contains a
  · rw [if_pos hA, if_pos hA]
    rfl
  · rw [if_neg hA, if_neg hA]
    rfl

theorem microDodIssues_filter_index (M : List String) (file : String) (proj : Json)
    (pIdx : Nat) (pth : Json) (pathIdx : Nat) (sl : Json) (sIdx : Nat)
    (mids : List Json) (c : Nat) (m : String)
    (hc : mids[c]? = some (Json.str m)) :
    (microDodIssues M file proj pIdx pth pathIdx sl sIdx mids).filter
      (fun ri => ri.type == "microId-not-found" && ri.index == c) =
      (if M.contains m then [] else [mkMicroIssue m file proj pIdx pth pathIdx sl sIdx c]) := by
  have hidx : ∀ (i : Nat) (x : Json) (ri : RefIssue),
      (fun mi : Nat × Json =>
        match mi.2 with
        | .str s => if M.contains s then none
          else some (mkMicroIssue s file proj pIdx pth pathIdx sl sIdx mi.1)
        | _ => none) (i, x) = some ri →
      ri.type = "microId-not-found" ∧ ri.index = i := by
    intro i x ri hf
    dsimp only at hf
    split at hf
    · split at hf
      · exact absurd hf (by simp)
      · have hri := Option.some.inj hf
        rw [← hri]
        exact ⟨rfl, rfl⟩
    · exact absurd hf (by simp)
  have h := filterMap_enumFrom_filter_index
    (fun mi : Nat × Json =>
      match mi.2 with
      | .str s => if M.contains s then none
        else some (mkMicroIssue s file proj pIdx pth pathIdx sl sIdx mi.1)
      | _ => none) "microId-not-found" hidx mids 0 c (Json.str m) hc
  rw [Nat.zero_add] at h
  unfold microDodIssues
  rw [show mids.enum = List.enumFrom 0 mids from rfl, h]
  dsimp only
  by_cases hM : M.contains m
  · rw [if_pos hM, if_pos hM]
    rfl
  · rw [if_neg hM, if_neg hM]
    rfl

theorem microDodIssues_filter_aim_nil (M : List String) (file : String) (proj : Json)
    (pIdx : Nat) (pth : Json) (pathIdx : Nat) (sl : Json) (sIdx : Nat)
    (mids : List Json) (c : Nat) :
    (microDodIssues M file proj pIdx pth pathIdx sl sIdx mids).filter
      (fun ri => ri.type == "aimId-not-found" && ri.index == c) = [] := by
  apply List.filter_eq_nil_iff.mpr
  intro ri hri
  unfold microDodIssues at hri
  rcases List.mem_filterMap.mp hri with ⟨⟨i, y⟩, hiy, hfy⟩
  dsimp only at hfy
  split at hfy
  · split at hfy
    · exact absurd hfy (by simp)
    · have hri2 := Option.some.inj hfy
      rw [← hri2]
      simp [mkMicroIssue]
  · exact absurd hfy (by simp)

theorem aimCalloutIssues_filter_micro_nil (A : List String) (file : String) (proj : Json)
    (pIdx : Nat) (pth : Json) (pathIdx : Nat) (sl : Json) (sIdx : Nat)
    (cs : List Json) (c : Nat) :
    (aimCalloutIssues A file proj pIdx pth pathIdx sl sIdx cs).filter
      (fun ri => ri.type == "microId-not-found" && ri.index == c) = [] := by
  apply List.filter_eq_nil_iff.mpr
  intro ri hri
  unfold aimCalloutIssues at hri
  rcases List.mem_filterMap.mp hri with ⟨⟨i, y⟩, hiy, hfy⟩
  dsimp only at hfy
  split at hfy
  · split at hfy
    · exact absurd hfy (by simp)
    · have hri2 := Option.some.inj hfy
      rw [← hri2]
      simp [mkAimIssue]
  · exact absurd hfy (by simp)

theorem mergeState_append_planner (pre : List MFile) (p : String) (d : Json)
    (hk : inferredKind d p = "plannerbundle") :
    (mergeState (pre ++ [(p, Except.ok d)])).refIssues =
      (mergeState pre).refIssues ++
        (walkPlanner (mergeState pre).aimIds (mergeState pre).microIds (basename p) d).1 := by
  unfold mergeState
  rw [List.foldl_append]
  simp only [List.foldl_cons, List.foldl_nil]
  simp only [mergeStep, hk]
  rw [show ("plannerbundle" == "aimtable") = false from rfl,
    show ("plannerbundle" == "hierarchy") = false from rfl,
    show ("plannerbundle" == "plannerbundle") = true from rfl]
  simp only [if_false, if_true, Bool.false_eq_true]
  unfold processPlanner
  dsimp only
  cases hw : (walkPlanner (pre.foldl mergeStep {}).aimIds
      (pre.foldl mergeStep {}).microIds (basename p) d).2 <;> rfl

/-- Claim C2: a PlannerBundle is validated synchronously against the id sets
accumulated from the files before it in scan order (its issues are appended to
the issues of the prefix); a crash-free walk enumerates every slice of every
path of every project; within a slice, a callout whose computed aimId is a
string produces exactly one aimId-not-found issue when the id is unknown at
that point and none when it is known, and an `includesMicros` string entry
produces exactly one microId-not-found issue when unknown and none when
known. -/
theorem c2_planner_reference_validation :
    (∀ (pre : List MFile) (p : String) (d : Json), inferredKind d p = "plannerbundle" →
      (mergeState (pre ++ [(p, Except.ok d)])).refIssues =
        (mergeState pre).refIssues ++
          (walkPlanner (mergeState pre).aimIds (mergeState pre).microIds (basename p) d).1) ∧
    (∀ (A M : List String) (file : String) (d : Json) (is : List RefIssue),
      walkPlanner A M file d = (is, none) → is = plannerIssuesTotal A M file d) ∧
    (∀ (A M : List String) (file : String) (proj : Json) (pIdx : Nat) (pth : Json)
      (pathIdx : Nat) (sl : Json) (sIdx c : Nat) (co : Json) (a : String),
      (sliceCallouts sl)[c]? = some co → calloutAimVal co = Json.str a →
      (walkSlice A M file proj pIdx pth pathIdx sl sIdx).filter
          (fun ri => ri.type == "aimId-not-found" && ri.index == c) =
        (if A.contains a then [] else [mkAimIssue a file proj pIdx pth pathIdx sl sIdx c])) ∧
    (∀ (A M : List String) (file : String) (proj : Json) (pIdx : Nat) (pth : Json)
      (pathIdx : Nat) (sl : Json) (sIdx mIdx : Nat) (m : String),
      (sliceMicros sl)[mIdx]? = some (Json.str m) →
      (walkSlice A M file proj pIdx pth pathIdx sl sIdx).filter
          (fun ri => ri.type == "microId-not-found" && ri.index == mIdx) =
        (if M.contains m then [] else [mkMicroIssue m file proj pIdx pth pathIdx sl sIdx mIdx])) := by
  refine ⟨?_, ?_, ?_, ?_⟩
  · intro pre p d hk
    exact mergeState_append_planner pre p d hk
  · intro A M file d is h
    exact walkPlanner_none A M file d is h
  · intro A M file proj pIdx pth pathIdx sl sIdx c co a hc ha
    unfold walkSlice
    rw [List.filter_append,
      aimCalloutIssues_filter_index A file proj pIdx pth pathIdx sl sIdx _ c co a hc ha,
      microDodIssues_filter_aim_nil, List.append_nil]
  · intro A M file proj pIdx pth pathIdx sl sIdx mIdx m hc
    unfold walkSlice
    rw [List.filter_append, aimCalloutIssues_filter_micro_nil,
      microDodIssues_filter_index M file proj pIdx pth pathIdx sl sIdx _ mIdx m hc,
      List.nil_append]

/-- Witness for C2: concrete instantiations of all four conjuncts on the
fixtures. -/
theorem c2_planner_reference_validation_witness :
    ((mergeState ([("imports/b1/aimtable.v1.import.json", Except.ok aimDoc1)] ++
        [("imports/b2/plannerbundle.v1.import.json", Except.ok plannerDoc1)])).refIssues =
      (mergeState [("imports/b1/aimtable.v1.import.json", Except.ok aimDoc1)]).refIssues ++
        (walkPlanner
          (mergeState [("imports/b1/aimtable.v1.import.json", Except.ok aimDoc1)]).aimIds
          (mergeState [("imports/b1/aimtable.v1.import.json", Except.ok aimDoc1)]).microIds
          (basename "imports/b2/plannerbundle.v1.import.json") plannerDoc1).1) ∧
    ((walkPlanner [] [] "f.json" plannerDoc1).1 =
      plannerIssuesTotal [] [] "f.json" plannerDoc1) ∧
    ((walkSlice [] [] "f.json" proj1 0 path1 0 slice1 0).filter
        (fun ri => ri.type == "aimId-not-found" && ri.index == 0) =
      (if List.contains [] "A9" then []
        else [mkAimIssue "A9" "f.json" proj1 0 path1 0 slice1 0 0])) ∧
    ((walkSlice [] [] "f.json" proj1 0 path1 0 slice1 0).filter
        (fun ri => ri.type == "microId-not-found" && ri.index == 0) =
      (if List.contains [] "M9" then []
        else [mkMicroIssue "M9" "f.json" proj1 0 path1 0 slice1 0 0])) :=
  ⟨c2_planner_reference_validation.1 _ _ plannerDoc1 rfl,
   c2_planner_reference_validation.2.1 [] [] "f.json" plannerDoc1 _ rfl,
   c2_planner_reference_validation.2.2.1 [] [] "f.json" proj1 0 path1 0 slice1 0 0
     (Json.obj [("aimId", Json.str "A9")]) "A9" rfl rfl,
   c2_planner_reference_validation.2.2.2 [] [] "f.json" proj1 0 path1 0 slice1 0 0 "M9" rfl⟩

theorem processAimItem_skip (st : MState) (x : Json) (h : aimItemId x = none) :
    processAimItem st x = st := by
  unfold processAimItem
  rw [h]

theorem aimCalloutIssues_keys (A : List String) (file : String) (proj : Json) (pIdx : Nat)
    (pth : Json) (pathIdx : Nat) (sl : Json) (sIdx : Nat) :
    ∀ (n : Nat) (cs : List Json),
      ((List.enumFrom n cs).filterMap (fun ci =>
        match calloutAimVal ci.2 with
        | .str s => if A.contains s then none
          else some (mkAimIssue s file proj pIdx pth pathIdx sl sIdx ci.1)
        | _ => none)).map issueKeyA =
      cs.filterMap (fun co =>
        match calloutAimVal co with
        | .str s => if A.contains s then none
          else some ("aimId-not-found", s, atSlice pIdx pathIdx sIdx)
        | _ => none) := by
  intro n cs
  induction cs generalizing n with
  | nil => rfl
  | cons co cs ih =>
    rw [show List.enumFrom n (co :: cs) = (n, co) :: List.enumFrom (n + 1) cs from rfl,
      List.filterMap_cons, List.filterMap_cons]
    dsimp only
    cases hval : calloutAimVal co <;> dsimp only
    case str s =>
      by_cases hA : A.contains s
      · rw [if_pos hA, if_pos hA]
        exact ih (n + 1)
      · rw [if_neg hA, if_neg hA]
        rw [List.map_cons]
        rw [ih (n + 1)]
        rfl
    all_goals exact ih (n + 1)

theorem microDodIssues_keys (M : List String) (file : String) (proj : Json) (pIdx : Nat)
    (pth : Json) (pathIdx : Nat) (sl : Json) (sIdx : Nat) :
    ∀ (n : Nat) (mids : List Json),
      ((List.enumFrom n mids).filterMap (fun mi =>
        match mi.2 with
        | .str s => if M.contains s then none
          else some (mkMicroIssue s file proj pIdx pth pathIdx sl sIdx mi.1)
        | _ => none)).map issueKeyM =
      mids.filterMap (fun mid =>
        match mid with
        | .str s => if M.contains s then none
          else some ("microId-not-found", s)
        | _ => none) := by
  intro n mids
  induction mids generalizing n with
  | nil => rfl
  | cons mid mids ih =>
    rw [show List.enumFrom n (mid :: mids) = (n, mid) :: List.enumFrom (n + 1) mids from rfl,
      List.filterMap_cons, List.filterMap_cons]
    dsimp only
    cases hval : mid <;> dsimp only
    case str s =>
      by_cases hM : M.contains s
      · rw [if_pos hM, if_pos hM]
        exact ih (n + 1)
      · rw [if_neg hM, if_neg hM]
        rw [List.map_cons]
        rw [ih (n + 1)]
        rfl
    all_goals exact ih (n + 1)

/-- Claim C10, counterexample: a callout that is the empty string has no
string `aimId` property, yet `co && co.aimId` evaluates to the string `""`
itself, so the merger records an aimId-not-found issue referencing `""`. -/
theorem c10_counterexample :
    ((Json.str "").getProp "aimId").isStr = false ∧
    calloutAimVal (Json.str "") = Json.str "" ∧
    (mergeState [("imports/b1/plannerbundle.v1.import.json", Except.ok plannerDoc2)]).refIssues.map
      (fun ri => (ri.type, ri.refId)) = [("aimId-not-found", "")] ∧
    (mergeState [("imports/b1/plannerbundle.v1.import.json", Except.ok plannerDoc2)]).errors = [] :=
  ⟨rfl, rfl, rfl, rfl⟩

/-- Claim C10, amended: an AimTable items entry that is not an object with a
string id contributes nothing at all to the run (same output with or without
it, no error); a callout whose computed `co && co.aimId` value is not a
string — this excludes the empty-string callout, which the guard treats as
its own aimId — contributes no reference issue; a non-string
`dod.includesMicros` entry contributes no issue; and crash detection (hence
error recording) of the planner walk never depends on the known-id sets. -/
theorem c10_nonstring_ids_skipped :
    (∀ (pre suf : List MFile) (now p : String) (d d2 : Json) (ipre isuf : List Json) (x : Json),
      aimItemId x = none →
      versionOf d2 = versionOf d →
      d.truthy = true → d2.truthy = true →
      d.getProp "items" = Json.arr (ipre ++ isuf) →
      d2.getProp "items" = Json.arr (ipre ++ x :: isuf) →
      inferredKind d p = "aimtable" →
      mergeAll (pre ++ (p, Except.ok d2) :: suf) now =
        mergeAll (pre ++ (p, Except.ok d) :: suf) now) ∧
    (∀ (A : List String) (file : String) (proj : Json) (pIdx : Nat) (pth : Json)
      (pathIdx : Nat) (sl : Json) (sIdx : Nat) (cs1 cs2 : List Json) (x : Json),
      (calloutAimVal x).isStr = false →
      (aimCalloutIssues A file proj pIdx pth pathIdx sl sIdx (cs1 ++ x :: cs2)).map issueKeyA =
        (aimCalloutIssues A file proj pIdx pth pathIdx sl sIdx (cs1 ++ cs2)).map issueKeyA) ∧
    (∀ (M : List String) (file : String) (proj : Json) (pIdx : Nat) (pth : Json)
      (pathIdx : Nat) (sl : Json) (sIdx : Nat) (ms1 ms2 : List Json) (x : Json),
      x.isStr = false →
      (microDodIssues M file proj pIdx pth pathIdx sl sIdx (ms1 ++ x :: ms2)).map issueKeyM =
        (microDodIssues M file proj pIdx pth pathIdx sl sIdx (ms1 ++ ms2)).map issueKeyM) ∧
    (∀ (A M A2 M2 : List String) (file : String) (d : Json),
      (walkPlanner A M file d).2 = (walkPlanner A2 M2 file d).2) := by
  refine ⟨?_, ?_, ?_, ?_⟩
  · intro pre suf now p d d2 ipre isuf x hx hver htr htr2 hit hit2 hk
    have hk2 : inferredKind d2 p = "aimtable" := by
      unfold inferredKind
      rw [hver]
      exact hk
    have hstep : ∀ st : MState, mergeStep st (p, Except.ok d2) = mergeStep st (p, Except.ok d) := by
      intro st
      simp only [mergeStep, hk, hk2]
      rw [show ("aimtable" == "aimtable") = true from rfl]
      simp only [if_true]
      unfold processAimTable
      rw [hit, hit2, htr, htr2]
      simp only [Json.isArr, Bool.and_self, if_true, Json.arrOrEmpty]
      rw [List.foldl_append, List.foldl_append, List.foldl_cons,
        processAimItem_skip _ x hx]
    have hs : mergeState (pre ++ (p, Except.ok d2) :: suf) =
        mergeState (pre ++ (p, Except.ok d) :: suf) := by
      unfold mergeState
      rw [List.foldl_append, List.foldl_append, List.foldl_cons, List.foldl_cons, hstep]
    have hlen : (pre ++ (p, Except.ok d2) :: suf).length =
        (pre ++ (p, Except.ok d) :: suf).length := by simp
    have hmap : (pre ++ (p, Except.ok d2) :: suf).map (fun f => f.1) =
        (pre ++ (p, Except.ok d) :: suf).map (fun f => f.1) := by simp
    unfold mergeAll
    rw [hs, hlen, hmap]
  · intro A file proj pIdx pth pathIdx sl sIdx cs1 cs2 x hx
    unfold aimCalloutIssues
    rw [show (cs1 ++ x :: cs2).enum = List.enumFrom 0 (cs1 ++ x :: cs2) from rfl,
      show (cs1 ++ cs2).enum = List.enumFrom 0 (cs1 ++ cs2) from rfl,
      aimCalloutIssues_keys, aimCalloutIssues_keys,
      List.filterMap_append, List.filterMap_append, List.filterMap_cons]
    cases hval : calloutAimVal x <;> dsimp only
    case str s =>
      rw [hval] at hx
      simp [Json.isStr] at hx
  · intro M file proj pIdx pth pathIdx sl sIdx ms1 ms2 x hx
    unfold microDodIssues
    rw [show (ms1 ++ x :: ms2).enum = List.enumFrom 0 (ms1 ++ x :: ms2) from rfl,
      show (ms1 ++ ms2).enum = List.enumFrom 0 (ms1 ++ ms2) from rfl,
      microDodIssues_keys, microDodIssues_keys,
      List.filterMap_append, List.filterMap_append, List.filterMap_cons]
    cases hval : x <;> dsimp only
    case str s =>
      rw [hval] at hx
      simp [Json.isStr] at hx
  · intro A M A2 M2 file d
    exact walkPlanner_err A M A2 M2 file d

/-- Witness for C10: a numeric AimTable item, a numeric callout and a numeric
`includesMicros` entry are each dropped with no visible effect. -/
theorem c10_nonstring_ids_skipped_witness :
    (mergeAll [("imports/b1/aimtable.v1.import.json", Except.ok aimDoc1junk)] "t" =
      mergeAll [("imports/b1/aimtable.v1.import.json", Except.ok aimDoc1)] "t") ∧
    ((aimCalloutIssues [] "f.json" proj1 0 path1 0 slice1 0
        ([] ++ Json.num 7 :: [Json.obj [("aimId", Json.str "A9")]])).map issueKeyA =
      (aimCalloutIssues [] "f.json" proj1 0 path1 0 slice1 0
        ([] ++ [Json.obj [("aimId", Json.str "A9")]])).map issueKeyA) ∧
    ((microDodIssues [] "f.json" proj1 0 path1 0 slice1 0
        ([] ++ Json.num 7 :: [Json.str "M9"])).map issueKeyM =
      (microDodIssues [] "f.json" proj1 0 path1 0 slice1 0
        ([] ++ [Json.str "M9"])).map issueKeyM) :=
  ⟨c10_nonstring_ids_skipped.1 [] [] "t" "imports/b1/aimtable.v1.import.json"
      aimDoc1 aimDoc1junk [] [Json.obj [("id", Json.str "A1"), ("note", Json.str "first")]]
      (Json.num 5) rfl rfl rfl rfl rfl rfl rfl,
   c10_nonstring_ids_skipped.2.1 [] "f.json" proj1 0 path1 0 slice1 0
      [] [Json.obj [("aimId", Json.str "A9")]] (Json.num 7) rfl,
   c10_nonstring_ids_skipped.2.2.1 [] "f.json" proj1 0 path1 0 slice1 0
      [] [Json.str "M9"] (Json.num 7) rfl⟩
